import Mathlib

/-!
# ZeroEQ: publisher wire framing and the shared receiver multiplexer

A shallow embedding of `zeroeq/publisher.cpp` (`Publisher::Impl`) and
`zeroeq/receiver.cpp` (`detail::Receiver`).

The transport (ZeroMQ), the discovery service (Servus) and the wall clock are
external collaborators.  They are embedded as records of functions over an
abstract world state `W`; every call the code makes to them is recorded, in
program order, in the trace of the run.  Loops that the C++ code leaves
unbounded (`while( true )`, `do ... while( haveData )`) take a fuel argument,
and a run that uses its fuel up ends as `outOfFuel` with the calls made so
far.

Conventions of the embedding:

* an attached `zeroeq::Receiver` is named by a number (the pointer kept in
  `_shared`), and `_shared` does not change during a `receive`;
* `addSockets` appends the sockets of a receiver to the vector and reads the
  world without changing it; `update` and `process` may change the world;
* `zmq_poll` yields the value it returns and the `revents` it writes at each
  position of the vector, the two being independent of each other;
* a `uint128_t` is a natural number, of which the wire format keeps the 16
  low bytes; a `uint32_t` timeout is a natural number, and the one
  conversion that can wrap (`elapsed`) is taken modulo `2^32`.
-/

namespace ZeroEQ

/-! ## Outcomes of a call -/

/-- The `std::runtime_error`s the two files raise, one constructor per
`ZEROEQTHROW`, with the variable part of the message. -/
inductive Exception where
  /-- The error "Empty session is not allowed for publisher". -/
  | emptySession
  /-- The error "Cannot bind publisher socket", with the ZeroMQ URI and the
  text of `zmq_strerror`. -/
  | cannotBind (zmqURI : String) (reason : String)
  /-- The error "No zeroconf implementation available". -/
  | noZeroconf
  /-- The error "Zeroconf announce failed", with `result.getString()`. -/
  | announceFailed (reason : String)
  /-- The error "Poll error", raised when `zmq_poll` returns -1. -/
  | pollError
deriving DecidableEq

/-- How a call ended: it returned a value, it raised an exception
(`ZEROEQTHROW`), it ran into undefined behaviour (reading the front of an
empty deque, dereferencing a past-the-end iterator), or the fuel of the
embedding ran out before the loop ended. -/
inductive Outcome (α : Type) where
  | returned (a : α)
  | threw (e : Exception)
  | undefinedBehaviour
  | outOfFuel
deriving DecidableEq

/-- The result of running a piece of code: how it ended, the world it left,
and the calls to the collaborators it made, oldest first. -/
structure Run (W Ev α : Type) where
  outcome : Outcome α
  world : W
  trace : List Ev

/-! ## ZeroMQ constants (zmq.h) -/

/-- Flag of `zmq_msg_send`: more frames of the same message follow. -/
def ZMQ_SNDMORE : Nat := 2

/-- Event bit of `zmq_pollitem_t`: the socket is readable. -/
def ZMQ_POLLIN : Nat := 1

/-- Event bit of `zmq_pollitem_t`: the socket is writable. -/
def ZMQ_POLLOUT : Nat := 2

/-- Event bit of `zmq_pollitem_t`: an error condition on a raw descriptor. -/
def ZMQ_POLLERR : Nat := 4

/-! ## Publisher: wire codec (`Publisher::Impl::publish`) -/

/-- The `n` low bytes of `v`, least significant first. -/
def leBytes : Nat → Nat → List Nat
  | 0, _ => []
  | n + 1, v => v % 256 :: leBytes n (v / 256)

/-- The number whose bytes, least significant first, are `bs`. -/
def ofLeBytes : List Nat → Nat
  | [] => 0
  | b :: bs => b + 256 * ofLeBytes bs

/-- The object representation of a `uint128_t` in host memory, as `memcpy`
reads it: 16 bytes, least significant first on a little-endian host and most
significant first on a big-endian one. -/
def hostBytes (bigEndian : Bool) (v : Nat) : List Nat :=
  if bigEndian then (leBytes 16 v).reverse else leBytes 16 v

/-- Modelled from the spec: `detail::byteswap` (detail/byteswap.h), which
reverses the byte order of the 16-byte identifier ("on big-endian hosts the
identifier is byte-swapped before send"). -/
def byteswap (v : Nat) : Nat :=
  ofLeBytes (leBytes 16 v).reverse

/-- One `zmq_msg_send` call: the bytes of the message and the flags. -/
structure Frame where
  data : List Nat
  flags : Nat
deriving DecidableEq

/-- The transport as the publisher sees it: `zmq_msg_send( &msg, socket,
flags )` yields the number of bytes sent or -1, and may change the world. -/
structure Transport (W : Type) where
  zmq_msg_send : Frame → Nat → W → Int × W

/-- One recorded `zmq_msg_send`: the frame, the socket and the value the
call returned. -/
structure SendCall where
  frame : Frame
  socket : Nat
  ret : Int
deriving DecidableEq

/-- A `zeroeq::URI`: scheme, host and port (0 when absent). -/
structure URI where
  scheme : String
  host : String
  port : Nat
deriving DecidableEq

/-- The members of `Publisher::Impl` (with those of its base
`detail::Sender`): the socket (0 once closed), the URI and `_session`. -/
structure PublisherState where
  socket : Nat
  uri : URI
  session : String
deriving DecidableEq

/-- A `const void*` with the memory behind it: `none` is the null pointer,
`some mem` a pointer at which byte `k` reads `mem k`. -/
abbrev Pointer := Option (Nat → Nat)

/-- The bytes `memcpy( dst, data, size )` copies. -/
def readBytes (mem : Nat → Nat) (size : Nat) : List Nat :=
  (List.range size).map mem

/-- The condition `data && size > 0`. -/
def hasPayload (data : Pointer) (size : Nat) : Bool :=
  data.isSome && decide (size > 0)

/-- The embedding of `Publisher::Impl::publish( uint128_t event, const void*
data, const size_t size )`.  The result carries the publisher's members after
the call. -/
def publish {W : Type} (zmq : Transport W) (bigEndian : Bool)
    (self : PublisherState) (event : Nat) (data : Pointer) (size : Nat)
    (w : W) : Run W SendCall (Bool × PublisherState) :=
  let event := if bigEndian then byteswap event else event
  let msgHeader : Frame :=
    { data := hostBytes bigEndian event
      flags := if hasPayload data size then ZMQ_SNDMORE else 0 }
  let (ret, w1) := zmq.zmq_msg_send msgHeader self.socket w
  let sentHeader : SendCall := ⟨msgHeader, self.socket, ret⟩
  if ret = -1 then
    { outcome := .returned (false, self), world := w1, trace := [sentHeader] }
  else if !hasPayload data size then
    { outcome := .returned (true, self), world := w1, trace := [sentHeader] }
  else
    let msg : Frame :=
      { data := readBytes (data.getD (fun _ => 0)) size, flags := 0 }
    let (ret, w2) := zmq.zmq_msg_send msg self.socket w1
    let sentMsg : SendCall := ⟨msg, self.socket, ret⟩
    if ret = -1 then
      { outcome := .returned (false, self), world := w2,
        trace := [sentHeader, sentMsg] }
    else
      { outcome := .returned (true, self), world := w2,
        trace := [sentHeader, sentMsg] }

/-- The embedding of `Publisher::publish( const uint128_t& event )`, which
calls `_impl->publish( event, nullptr, 0 )`. -/
def publishEvent {W : Type} (zmq : Transport W) (bigEndian : Bool)
    (self : PublisherState) (event : Nat) (w : W) :
    Run W SendCall (Bool × PublisherState) :=
  publish zmq bigEndian self event none 0 w

/-- The header frame of the wire format: the 16 little-endian bytes of the
event identifier, flagged `ZMQ_SNDMORE` exactly when the payload pointer is
non-null and `size > 0`. -/
def headerFrame (event : Nat) (data : Pointer) (size : Nat) : Frame :=
  ⟨leBytes 16 event, if data.isSome = true ∧ 0 < size then ZMQ_SNDMORE else 0⟩

/-- The payload frame of the wire format: the `size` bytes at `data`, with
no flag. -/
def payloadFrame (data : Pointer) (size : Nat) : Frame :=
  ⟨(List.range size).map (data.getD (fun _ => 0)), 0⟩

/-- The frames `publish` has to send: the header, and the payload when the
payload pointer is non-null and `size > 0`. -/
def requiredFrames (event : Nat) (data : Pointer) (size : Nat) : List Frame :=
  if data.isSome = true ∧ 0 < size then
    [headerFrame event data size, payloadFrame data size]
  else [headerFrame event data size]

/-- A transport whose world is the list of results the coming sends will
give (an exhausted list sends successfully). -/
def scriptedTransport : Transport (List Int) where
  zmq_msg_send := fun f _ w =>
    match w with
    | [] => (Int.ofNat f.data.length, [])
    | r :: rest => (r, rest)

/-! ## Publisher: construction (`Publisher::Impl::Impl`) -/

/-- The constants of the repository that `publisher.cpp` uses and does not
define (types.h, detail/constants.h). -/
structure Constants where
  DEFAULT_SESSION : String
  NULL_SESSION : String
  PUBLISHER_SERVICE : String
  KEY_INSTANCE : String
  KEY_USER : String
  KEY_APPLICATION : String
  KEY_SESSION : String

/-- What the collaborators answer during a construction: the socket the
base `detail::Sender` opened, `getDefaultSession()`, `buildZmqURI`,
`zmq_bind` and `zmq_strerror`, the URI `initURI()` reads back, the UUID,
`getUserName()`, `_getApplicationName()`, `getAddress()`,
`servus::Servus::isAvailable()` and the `Result` of `announce` (whether it
converts to `true`, and its string). -/
structure Host where
  socket : Nat
  getDefaultSession : String
  buildZmqURI : URI → String
  zmq_bind : Nat → String → Int
  zmq_strerror : String
  initURI : URI → URI
  uuid : String
  getUserName : String
  getApplicationName : String
  getAddress : URI → String
  isAvailable : Bool
  announce : List (String × String) → Nat → String → Bool × String

/-- The calls a construction makes on the transport and on the discovery
adapter `_service`. -/
inductive CtorEvent where
  | bind (socket : Nat) (zmqURI : String)
  | close (socket : Nat)
  | isAvailable
  | set (key value : String)
  /-- The call `_service.announce( port, address )`, with the key/value pairs set on
  `_service` before the call. -/
  | announce (port : Nat) (address : String) (metadata : List (String × String))
deriving DecidableEq

/-- The key/value pairs `_initService` sets on `_service`, in order. -/
def serviceData (c : Constants) (h : Host) (self : PublisherState) :
    List (String × String) :=
  [(c.KEY_INSTANCE, h.uuid), (c.KEY_USER, h.getUserName),
    (c.KEY_APPLICATION, h.getApplicationName)] ++
  (if self.session ≠ "" then [(c.KEY_SESSION, self.session)] else [])

/-- The embedding of `Publisher::Impl::_initService()`. -/
def _initService (c : Constants) (h : Host) (self : PublisherState) :
    Run Unit CtorEvent Unit :=
  if !h.isAvailable then
    ⟨.threw .noZeroconf, (), [.isAvailable]⟩
  else
    let sets := (serviceData c h self).map (fun kv => CtorEvent.set kv.1 kv.2)
    let announced := CtorEvent.announce self.uri.port (h.getAddress self.uri)
      (serviceData c h self)
    let result := h.announce (serviceData c h self) self.uri.port
      (h.getAddress self.uri)
    if !result.1 then
      ⟨.threw (.announceFailed result.2), (),
        CtorEvent.isAvailable :: sets ++ [announced]⟩
    else
      ⟨.returned (), (), CtorEvent.isAvailable :: sets ++ [announced]⟩

/-- The embedding of the constructor `Publisher::Impl::Impl( const URI& uri_,
const std::string& session )`; it returns the members of the publisher. -/
def Impl (c : Constants) (h : Host) (uri_ : URI) (session : String) :
    Run Unit CtorEvent PublisherState :=
  let _session := if session = c.DEFAULT_SESSION then h.getDefaultSession
    else session
  if session = "" then
    ⟨.threw .emptySession, (), []⟩
  else
    let zmqURI := h.buildZmqURI uri_
    if h.zmq_bind h.socket zmqURI = -1 then
      ⟨.threw (.cannotBind zmqURI h.zmq_strerror), (),
        [.bind h.socket zmqURI, .close h.socket]⟩
    else
      let self : PublisherState := ⟨h.socket, h.initURI uri_, _session⟩
      if session ≠ c.NULL_SESSION then
        let r := _initService c h self
        match r.outcome with
        | .returned _ =>
          ⟨.returned self, (), CtorEvent.bind h.socket zmqURI :: r.trace⟩
        | .threw e => ⟨.threw e, (), CtorEvent.bind h.socket zmqURI :: r.trace⟩
        | .undefinedBehaviour =>
          ⟨.undefinedBehaviour, (), CtorEvent.bind h.socket zmqURI :: r.trace⟩
        | .outOfFuel =>
          ⟨.outOfFuel, (), CtorEvent.bind h.socket zmqURI :: r.trace⟩
      else
        ⟨.returned self, (), [.bind h.socket zmqURI]⟩

/-- Whether an event is a `zmq_bind`. -/
def CtorEvent.isBind : CtorEvent → Bool
  | .bind _ _ => true
  | _ => false

/-- Whether an event is an `announce`. -/
def CtorEvent.isAnnounce : CtorEvent → Bool
  | .announce _ _ _ => true
  | _ => false

/-- The constants as the repository names them in its documentation: the
keys `instance`, `user`, `application`, `session` and the service
`_zeroeq_pub._tcp`. -/
def sampleConstants : Constants where
  DEFAULT_SESSION := "__zeroeq"
  NULL_SESSION := "__null_session"
  PUBLISHER_SERVICE := "_zeroeq_pub._tcp"
  KEY_INSTANCE := "instance"
  KEY_USER := "user"
  KEY_APPLICATION := "application"
  KEY_SESSION := "session"

/-- A host on which everything succeeds: the bind gives port 4242, and the
default session resolves to the given string. -/
def sampleHost (defaultSession : String) (available : Bool) : Host where
  socket := 1
  getDefaultSession := defaultSession
  buildZmqURI := fun _ => "tcp://*:0"
  zmq_bind := fun _ _ => 0
  zmq_strerror := ""
  initURI := fun u => { u with host := "*", port := 4242 }
  uuid := "6ba7b810"
  getUserName := ""
  getApplicationName := "app"
  getAddress := fun _ => "*:4242"
  isAvailable := available
  announce := fun _ _ _ => (true, "")

/-! ## Receiver core (`detail::Receiver`) -/

/-- A `detail::Socket`, that is a `zmq_pollitem_t`: the ZeroMQ socket, the
raw descriptor, the events asked for and the events `zmq_poll` reported. -/
structure Socket where
  socket : Nat
  fd : Int
  events : Nat
  revents : Nat
deriving DecidableEq

/-- The calls `detail::Receiver` makes to its collaborators. -/
inductive Event where
  /-- The call `receiver->update()` on the receiver with this identity. -/
  | update (receiver : Nat)
  /-- The call `std::chrono::high_resolution_clock::now()` and the reading,
  in ns. -/
  | now (reading : Int)
  /-- The call `zmq_poll( sockets.data(), int( sockets.size( )), timeout )` and the
  value it returned. -/
  | poll (sockets : List Socket) (timeout : Nat) (ret : Int)
  /-- The call `receiver->process( socket, timeout )`. -/
  | process (receiver : Nat) (socket : Socket) (timeout : Nat)
deriving DecidableEq

/-- The collaborators of `detail::Receiver` over a world `W`: the virtual
methods of the attached `zeroeq::Receiver`s (named by a number, the pointer
kept in `_shared`), `zmq_poll` (the value it returns and the `revents` it
writes at each index of the vector) and the clock. -/
structure Env (W : Type) where
  update : Nat → W → W
  addSockets : Nat → W → List Socket
  process : Nat → Socket → Nat → W → W
  zmq_poll : List Socket → Nat → W → Int × (Nat → Nat) × W
  now : W → Int × W

/-- The loop `for( receiver : _shared ) receiver->update();`. -/
def updateAll {W : Type} (env : Env W) (shared : List Nat) (w : W) : W :=
  shared.foldl (fun w r => env.update r w) w

/-- The gathering loop at the head of a poll round: each receiver appends
its sockets to `sockets`, and the growth of the vector is pushed on
`intervals`. -/
def gather {W : Type} (env : Env W) (shared : List Nat) (w : W) :
    List Socket × List Nat :=
  shared.foldl
    (fun (acc : List Socket × List Nat) receiver =>
      let before := acc.1.length
      let sockets := acc.1 ++ env.addSockets receiver w
      (sockets, acc.2 ++ [sockets.length - before]))
    ([], [])

/-- The vector after `zmq_poll` wrote the reported events into it. -/
def setRevents (sockets : List Socket) (revents : Nat → Nat) : List Socket :=
  sockets.enum.map (fun p => { p.2 with revents := revents p.1 })

/-- The loop `while( interval == 0 || interval-- == 0 ) { ++i; interval =
intervals.front(); intervals.pop_front(); }` from the state `(intervals, i,
interval)`: `none` when it reads the front of an empty deque. -/
def advance : List Nat → Nat → Nat → Option (Nat × Nat × List Nat)
  | [], _, 0 => none
  | k :: rest, i, 0 => advance rest (i + 1) k
  | intervals, i, interval + 1 => some (i, interval, intervals)

/-- The test `socket.revents & ZMQ_POLLIN`. -/
def readable (s : Socket) : Bool :=
  s.revents &&& ZMQ_POLLIN != 0

/-- The state a walk over the polled sockets ends in: whether it stayed
clear of undefined behaviour, `haveData`, the position of the iterator `i`,
the world, and the calls made. -/
structure Walk (W : Type) where
  ok : Bool
  haveData : Bool
  iterator : Nat
  world : W
  trace : List Event

/-- The loop `for( Socket& socket : sockets )` of a poll round, from the
iterator position `i` (an index into `_shared`), the counter `interval` and
the deque `intervals`.  Reading the front of the empty deque and
dereferencing an iterator that is not on a receiver end the walk. -/
def walk {W : Type} (env : Env W) (shared : List Nat) :
    List Socket → Nat → Nat → List Nat → Bool → W → Walk W
  | [], i, _, _, haveData, w => ⟨true, haveData, i, w, []⟩
  | socket :: rest, i, interval, intervals, haveData, w =>
    match advance intervals i interval with
    | none => ⟨false, haveData, i, w, []⟩
    | some (i, interval, intervals) =>
      if readable socket then
        match shared[i]? with
        | none => ⟨false, haveData, i, w, []⟩
        | some receiver =>
          let r := walk env shared rest i interval intervals true
            (env.process receiver socket 0 w)
          { r with trace := Event.process receiver socket 0 :: r.trace }
      else
        walk env shared rest i interval intervals haveData w

/-- How one pass through the body of `do { ... } while( haveData )` ended:
at `case -1` (the throw), at `case 0` (`return haveData`), in undefined
behaviour, or at the end of the `default` case with this `haveData`. -/
inductive RoundEnd where
  | pollFailed
  | timedOut
  | undefinedBehaviour
  | walked (haveData : Bool)
deriving DecidableEq

/-- The result of one poll round: how it ended, where the iterator `i`
stood, the world, and the calls made. -/
structure Round (W : Type) where
  ending : RoundEnd
  iterator : Nat
  world : W
  trace : List Event

/-- One pass through the body of the `do { ... } while( haveData )` loop of
`_receive`: gather the sockets, poll them, and in the `default` case reset
`haveData`, set `timeout = 0` and walk the polled sockets. -/
def pollRound {W : Type} (env : Env W) (shared : List Nat) (timeout : Nat)
    (w : W) : Round W :=
  let polled := Event.poll (gather env shared w).1 timeout
    (env.zmq_poll (gather env shared w).1 timeout w).1
  let revents := (env.zmq_poll (gather env shared w).1 timeout w).2.1
  let w1 := (env.zmq_poll (gather env shared w).1 timeout w).2.2
  if (env.zmq_poll (gather env shared w).1 timeout w).1 = -1 then
    ⟨.pollFailed, 0, w1, [polled]⟩
  else if (env.zmq_poll (gather env shared w).1 timeout w).1 = 0 then
    ⟨.timedOut, 0, w1, [polled]⟩
  else
    match (gather env shared w).2 with
    | [] => ⟨.undefinedBehaviour, 0, w1, [polled]⟩
    | interval :: intervals =>
      let r := walk env shared (setRevents (gather env shared w).1 revents) 0
        interval intervals false w1
      if r.ok then
        ⟨.walked r.haveData, r.iterator, r.world, polled :: r.trace⟩
      else
        ⟨.undefinedBehaviour, r.iterator, r.world, polled :: r.trace⟩

/-- The loop `do { ... } while( haveData )` of `detail::Receiver::_receive`
entered with the given `haveData` and `timeout`; `fuel` bounds the number of
poll rounds. -/
def receiveRounds {W : Type} (env : Env W) (shared : List Nat) :
    Nat → Bool → Nat → W → Run W Event Bool
  | 0, _, _, w => ⟨.outOfFuel, w, []⟩
  | fuel + 1, haveData, timeout, w =>
    let r := pollRound env shared timeout w
    match r.ending with
    | .pollFailed => ⟨.threw .pollError, r.world, r.trace⟩
    | .timedOut => ⟨.returned haveData, r.world, r.trace⟩
    | .undefinedBehaviour => ⟨.undefinedBehaviour, r.world, r.trace⟩
    | .walked true =>
      let next := receiveRounds env shared fuel true 0 r.world
      { next with trace := r.trace ++ next.trace }
    | .walked false => ⟨.returned true, r.world, r.trace⟩

/-- The embedding of `detail::Receiver::_receive`, which starts the rounds
with `haveData = false`. -/
def _receive {W : Type} (env : Env W) (shared : List Nat) (fuel : Nat)
    (timeout : Nat) (w : W) : Run W Event Bool :=
  receiveRounds env shared fuel false timeout w

/-- The embedding of `detail::Receiver::_blockingReceive`; `loops` bounds
the iterations of `while( true )` and `fuel` the rounds of each `_receive`. -/
def _blockingReceive {W : Type} (env : Env W) (shared : List Nat)
    (fuel : Nat) : Nat → W → Run W Event Bool
  | 0, w => ⟨.outOfFuel, w, []⟩
  | loops + 1, w =>
    let w1 := updateAll env shared w
    let updates := shared.map Event.update
    let r := _receive env shared fuel 1000 w1
    match r.outcome with
    | .returned false =>
      let next := _blockingReceive env shared fuel loops r.world
      { next with trace := updates ++ r.trace ++ next.trace }
    | _ => { r with trace := updates ++ r.trace }

/-- The `block` of `receive`: `std::min( 1000u, timeout / 10 )`. -/
def blockOf (timeout : Nat) : Nat :=
  min 1000 (timeout / 10)

/-- The `elapsed` of `receive`: the nanoseconds between the two clock
readings, divided by 1000000 in 64-bit signed arithmetic (rounding toward
zero) and converted to `uint32_t`. -/
def elapsedOf (startTime endTime : Int) : Nat :=
  (Int.tdiv (endTime - startTime) 1000000 % 4294967296).toNat

/-- The `wait` of `receive`: 0, or `std::min( timeout - uint32_t( elapsed ),
block )` when `elapsed < timeout`. -/
def waitOf (timeout elapsed : Nat) : Nat :=
  if elapsed < timeout then min (timeout - elapsed) (blockOf timeout) else 0

/-- The loop `while( true )` of `receive` for a finite timeout; `loops`
bounds its iterations and `fuel` the rounds of each `_receive`. -/
def receiveLoop {W : Type} (env : Env W) (shared : List Nat) (fuel : Nat)
    (timeout : Nat) (startTime : Int) : Nat → W → Run W Event Bool
  | 0, w => ⟨.outOfFuel, w, []⟩
  | loops + 1, w =>
    let updated := updateAll env shared w
    let endTime := (env.now updated).1
    let elapsed := elapsedOf startTime endTime
    let wait := waitOf timeout elapsed
    let r := _receive env shared fuel wait (env.now updated).2
    let head := shared.map Event.update ++ Event.now endTime :: r.trace
    match r.outcome with
    | .returned false =>
      if elapsed ≥ timeout then
        ⟨.returned false, r.world, head⟩
      else
        let next := receiveLoop env shared fuel timeout startTime loops r.world
        { next with trace := head ++ next.trace }
    | _ => { r with trace := head }

/-- The embedding of `detail::Receiver::receive( const uint32_t timeout )`.
`indefinite` is the value of the constant `TIMEOUT_INDEFINITE`, which the
two files do not define. -/
def receive {W : Type} (env : Env W) (indefinite : Nat) (shared : List Nat)
    (loops fuel : Nat) (timeout : Nat) (w : W) : Run W Event Bool :=
  if timeout = indefinite then
    _blockingReceive env shared fuel loops w
  else
    let r := receiveLoop env shared fuel timeout (env.now w).1 loops
      (env.now w).2
    { r with trace := Event.now (env.now w).1 :: r.trace }

/-- The flat vector of a poll round: the sockets of the attached receivers,
in registration order. -/
def flatSockets {W : Type} (env : Env W) (shared : List Nat) (w : W) :
    List Socket :=
  (shared.map (fun r => env.addSockets r w)).flatten

/-- The receiver that contributed each position of the flat vector: the
first receiver for its `k_1` sockets, then the second for its `k_2`, ... -/
def owners {W : Type} (env : Env W) (shared : List Nat) (w : W) : List Nat :=
  (shared.map (fun r => List.replicate (env.addSockets r w).length r)).flatten

/-- The `_receive` call of one iteration of the loop of `receive`, entered
in world `w` with the clock started at `startTime`. -/
def iterationReceive {W : Type} (env : Env W) (shared : List Nat) (fuel : Nat)
    (timeout : Nat) (startTime : Int) (w : W) : Run W Event Bool :=
  _receive env shared fuel
    (waitOf timeout
      (elapsedOf startTime (env.now (updateAll env shared w)).1))
    (env.now (updateAll env shared w)).2

/-- The calls of one iteration of the loop of `receive`: the updates, the
clock reading, and the calls of `_receive`. -/
def iterationTrace {W : Type} (env : Env W) (shared : List Nat) (fuel : Nat)
    (timeout : Nat) (startTime : Int) (w : W) : List Event :=
  shared.map Event.update ++
    Event.now (env.now (updateAll env shared w)).1 ::
      (iterationReceive env shared fuel timeout startTime w).trace

/-- The owners of the sockets still to walk: `interval` more of the current
receiver, then those of the receivers behind it. -/
def ownersFrom (cur interval : Nat) (todo intervals : List Nat) : List Nat :=
  List.replicate interval cur
    ++ (List.zipWith (fun k r => List.replicate k r) intervals todo).flatten

/-- The transport never reports readiness without a readable socket: when
`zmq_poll` returns neither 0 nor -1, at least one polled socket has
`ZMQ_POLLIN` in its `revents`. -/
def ConsistentPoll {W : Type} (env : Env W) : Prop :=
  ∀ (sockets : List Socket) (t : Nat) (w : W),
    (env.zmq_poll sockets t w).1 ≠ 0 → (env.zmq_poll sockets t w).1 ≠ -1 →
    (setRevents sockets (env.zmq_poll sockets t w).2.1).any readable = true

/-- The `process` calls a walk has to make: the polled sockets, each with
the receiver that contributed it, of which those flagged readable remain. -/
def expectedCalls (owners : List Nat) (sockets : List Socket) :
    List (Nat × Socket) :=
  (owners.zip sockets).filter (fun p => readable p.2)

/-- Whether an event is a `process` call. -/
def Event.isProcess : Event → Bool
  | .process _ _ _ => true
  | _ => false

/-- Whether an event is a `zmq_poll` call. -/
def Event.isPoll : Event → Bool
  | .poll _ _ _ => true
  | _ => false

/-- Whether an event is an `update` call. -/
def Event.isUpdate : Event → Bool
  | .update _ => true
  | _ => false

/-- The `process( socket, 0 )` calls of a walk, as events. -/
def processEvents (calls : List (Nat × Socket)) : List Event :=
  calls.map (fun p => Event.process p.1 p.2 0)

/-- Every poll of the trace comes after an `update` of each attached
receiver. -/
def Covered (shared : List Nat) (trace : List Event) : Prop :=
  ∀ (pre : List Event) (e : Event) (post : List Event),
    trace = pre ++ e :: post → e.isPoll = true →
    ∀ r ∈ shared, Event.update r ∈ pre

/-- The trace is a sequence of iterations, each made of one `update` per
attached receiver, in registration order, followed by calls that are not
updates. -/
def Iterations (shared : List Nat) (trace : List Event) : Prop :=
  ∃ bodies : List (List Event),
    trace = (bodies.map (fun b => shared.map Event.update ++ b)).flatten ∧
    ∀ b ∈ bodies, ∀ e ∈ b, e.isUpdate = false

/-- The world in which one iteration of the outer loop polls, as the claim
describes it: `update()` has run once on each attached receiver, in
registration order, each call working on the world the one before left, and
in the finite mode (`clocked`) the clock has then been read. -/
def claimedPollWorld {W : Type} (env : Env W) (shared : List Nat)
    (clocked : Bool) (w : W) : W :=
  if clocked then (env.now (shared.foldl (fun w r => env.update r w) w)).2
  else shared.foldl (fun w r => env.update r w) w

/-- The calls of one iteration of the outer loop, as the claim describes
it: one `update()` per attached receiver, in registration order; in the
finite mode the clock reading made after them; then the calls of the
`_receive( wait )` that runs in the world so reached. -/
def claimedIteration {W : Type} (env : Env W) (shared : List Nat)
    (fuel : Nat) (clocked : Bool) (wait : Nat) (w : W) : List Event :=
  shared.map Event.update ++
    (if clocked then
      [Event.now (env.now (shared.foldl (fun w r => env.update r w) w)).1]
    else []) ++
    (_receive env shared fuel wait (claimedPollWorld env shared clocked w)).trace

/-- The traces the claim allows the outer loop to have made from world `w`:
none yet, or one iteration followed by those allowed from the world the
`_receive` of that iteration left. -/
inductive OuterLoop {W : Type} (env : Env W) (shared : List Nat) (fuel : Nat)
    (clocked : Bool) : W → List Event → Prop where
  | stop (w : W) : OuterLoop env shared fuel clocked w []
  | iteration (w : W) (wait : Nat) (rest : List Event) :
    OuterLoop env shared fuel clocked
      (_receive env shared fuel wait
        (claimedPollWorld env shared clocked w)).world rest →
    OuterLoop env shared fuel clocked w
      (claimedIteration env shared fuel clocked wait w ++ rest)

/-! ## A model of the transport: sockets with queues of pending messages -/

/-- The world of the queue model: the number of messages pending on each
ZeroMQ socket, and the clock in ns. -/
structure QueueWorld where
  pending : Nat → Nat
  clock : Int

/-- The queue model: receiver `r` owns the sockets `socketsOf r` and asks
for `ZMQ_POLLIN` on them; `zmq_poll` flags exactly the sockets with a pending
message and returns their number, and lets the timeout pass when there is
none; `process` takes one message off its socket; nothing arrives, and
`update` does nothing. -/
def queueEnv (socketsOf : Nat → List Nat) : Env QueueWorld where
  update := fun _ w => w
  addSockets := fun r _ => (socketsOf r).map (fun id => ⟨id, 0, ZMQ_POLLIN, 0⟩)
  process := fun _ s _ w =>
    { w with
      pending := fun id => if id = s.socket then w.pending id - 1 else w.pending id }
  zmq_poll := fun sockets timeout w =>
    (Int.ofNat (sockets.filter (fun s => decide (0 < w.pending s.socket))).length,
     fun j =>
       match sockets[j]? with
       | some s => if 0 < w.pending s.socket then ZMQ_POLLIN else 0
       | none => 0,
     if (sockets.filter (fun s => decide (0 < w.pending s.socket))).isEmpty then
       { w with clock := w.clock + Int.ofNat timeout * 1000000 }
     else w)
  now := fun w => (w.clock, w)

/-- Four receivers: 10 and 12 own no socket, 11 owns sockets 1 and 2, and 13
owns socket 3. -/
def sampleSockets : Nat → List Nat
  | 11 => [1, 2]
  | 13 => [3]
  | _ => []

/-- No message on socket 1, two on socket 2, one on socket 3. -/
def samplePending : Nat → Nat
  | 2 => 2
  | 3 => 1
  | _ => 0

/-- The messages pending on the given sockets, in total. -/
def pendingTotal (sockets : List Socket) (w : QueueWorld) : Nat :=
  (sockets.map (fun s => w.pending s.socket)).sum

/-- A polled socket of the queue model: `ZMQ_POLLIN` is reported exactly
when a message is pending. -/
def markReady (w : QueueWorld) (s : Socket) : Socket :=
  { s with revents := if 0 < w.pending s.socket then ZMQ_POLLIN else 0 }

/-! ## A model of the transport: scripted polls -/

/-- The world of the scripted model: the results of the coming polls (the
value returned and the `revents` written at each position), and the clock
in ns. -/
structure ScriptWorld where
  polls : List (Int × List Nat)
  clock : Int

/-- The scripted model: receiver `r` contributes the sockets `socketsOf r`;
each `zmq_poll` gives the next result of the script (0 once the script is
used up) and lets the timeout pass when it returns 0. -/
def scriptedEnv (socketsOf : Nat → List Socket) : Env ScriptWorld where
  update := fun _ w => w
  addSockets := fun r _ => socketsOf r
  process := fun _ _ _ w => w
  zmq_poll := fun _ timeout w =>
    match w.polls with
    | [] => (0, fun _ => 0, ⟨[], w.clock + Int.ofNat timeout * 1000000⟩)
    | (ret, revents) :: rest =>
      (ret, fun j => revents.getD j 0,
        ⟨rest, if ret = 0 then w.clock + Int.ofNat timeout * 1000000 else w.clock⟩)
  now := fun w => (w.clock, w)

/-- Receiver 7 contributes one raw descriptor (no ZeroMQ socket, `fd` 5)
polled for `ZMQ_POLLIN`. -/
def rawDescriptor : Nat → List Socket
  | 7 => [⟨0, 5, ZMQ_POLLIN, 0⟩]
  | _ => []

/-! # Properties -/

/-! ## The wire codec -/

theorem publish_sample_trace :
    (publish scriptedTransport false ⟨1, ⟨"tcp", "*", 0⟩, "s"⟩ 5
        (some fun k => k + 65) 3 [16, 3]).trace
      = [⟨⟨[5, 0, 0, 0, 0, 0, 0, 0, 0, 0, 0, 0, 0, 0, 0, 0], 2⟩, 1, 16⟩,
         ⟨⟨[65, 66, 67], 0⟩, 1, 3⟩] := by
  decide

theorem leBytes_length (n v : Nat) : (leBytes n v).length = n := by
  induction n generalizing v with
  | zero => rfl
  | succ n ih => simp [leBytes, ih]

theorem leBytes_lt (n v : Nat) : ∀ b ∈ leBytes n v, b < 256 := by
  induction n generalizing v with
  | zero => simp [leBytes]
  | succ n ih =>
    intro b hb
    simp only [leBytes, List.mem_cons] at hb
    rcases hb with rfl | hb
    · omega
    · exact ih _ b hb

theorem leBytes_ofLeBytes (bs : List Nat) (h : ∀ b ∈ bs, b < 256) :
    leBytes bs.length (ofLeBytes bs) = bs := by
  induction bs with
  | nil => rfl
  | cons b bs ih =>
    have hb : b < 256 := h b (List.mem_cons_self _ _)
    have hbs : ∀ x ∈ bs, x < 256 := fun x hx => h x (List.mem_cons_of_mem _ hx)
    have h1 : (b + 256 * ofLeBytes bs) % 256 = b := by omega
    have h2 : (b + 256 * ofLeBytes bs) / 256 = ofLeBytes bs := by omega
    simp only [List.length_cons, ofLeBytes, leBytes, h1, h2, ih hbs]

/-- On either kind of host the header frame holds the identifier in
little-endian byte order. -/
theorem header_wire_bytes (bigEndian : Bool) (event : Nat) :
    hostBytes bigEndian (if bigEndian then byteswap event else event)
      = leBytes 16 event := by
  cases bigEndian with
  | false => simp [hostBytes]
  | true =>
    have hlen : ((leBytes 16 event).reverse).length = 16 := by
      simp [leBytes_length]
    have hlt : ∀ b ∈ (leBytes 16 event).reverse, b < 256 := by
      intro b hb
      exact leBytes_lt 16 event b (List.mem_reverse.mp hb)
    have := leBytes_ofLeBytes _ hlt
    rw [hlen] at this
    simp [hostBytes, byteswap, this]

theorem hasPayload_none (size : Nat) : hasPayload none size = false := rfl

theorem hasPayload_some (mem : Nat → Nat) (size : Nat) :
    hasPayload (some mem) size = decide (size > 0) := by
  simp [hasPayload]

theorem readBytes_length (mem : Nat → Nat) (size : Nat) :
    (readBytes mem size).length = size := by
  simp [readBytes]

/-- What `publish` does, in terms of what the transport answers: `H` is the
answer to the header send in the world of the call, `P` the answer to the
payload send in the world the header send left. -/
theorem publish_run {W : Type} (zmq : Transport W) (bigEndian : Bool)
    (self : PublisherState) (event : Nat) (data : Pointer) (size : Nat)
    (w : W) :
    publish zmq bigEndian self event data size w
      = ⟨.returned
          (decide
            ((zmq.zmq_msg_send (headerFrame event data size) self.socket w).1
                ≠ -1 ∧
              (data.isSome = true ∧ 0 < size →
                (zmq.zmq_msg_send (payloadFrame data size) self.socket
                  (zmq.zmq_msg_send (headerFrame event data size)
                    self.socket w).2).1 ≠ -1)),
            self),
          (if data.isSome = true ∧ 0 < size ∧
              (zmq.zmq_msg_send (headerFrame event data size) self.socket
                w).1 ≠ -1 then
            (zmq.zmq_msg_send (payloadFrame data size) self.socket
              (zmq.zmq_msg_send (headerFrame event data size)
                self.socket w).2).2
          else
            (zmq.zmq_msg_send (headerFrame event data size) self.socket w).2),
          ⟨headerFrame event data size, self.socket,
            (zmq.zmq_msg_send (headerFrame event data size) self.socket
              w).1⟩ ::
          (if data.isSome = true ∧ 0 < size ∧
              (zmq.zmq_msg_send (headerFrame event data size) self.socket
                w).1 ≠ -1 then
            [⟨payloadFrame data size, self.socket,
              (zmq.zmq_msg_send (payloadFrame data size) self.socket
                (zmq.zmq_msg_send (headerFrame event data size)
                  self.socket w).2).1⟩]
          else [])⟩ := by
  unfold publish
  simp only [header_wire_bytes]
  cases data with
  | none =>
    simp only [hasPayload_none, headerFrame, Option.isSome_none,
      Bool.false_eq_true, false_and, if_false, Bool.not_false, if_true,
      false_implies, and_true]
    by_cases h1 : (zmq.zmq_msg_send ⟨leBytes 16 event, 0⟩ self.socket w).1 = -1
    · simp [h1]
    · simp [h1]
  | some mem =>
    simp only [hasPayload_some, headerFrame, payloadFrame, readBytes,
      Option.getD_some, Option.isSome_some, true_and]
    by_cases hs : 0 < size
    · simp only [hs, gt_iff_lt, decide_True, if_true, Bool.not_true,
        true_and, true_implies]
      by_cases h1 : (zmq.zmq_msg_send ⟨leBytes 16 event, ZMQ_SNDMORE⟩
          self.socket w).1 = -1
      · simp [h1]
      · by_cases h2 : (zmq.zmq_msg_send ⟨(List.range size).map mem, 0⟩
            self.socket
            (zmq.zmq_msg_send ⟨leBytes 16 event, ZMQ_SNDMORE⟩
              self.socket w).2).1 = -1
        · simp [h1, h2]
        · simp [h1, h2]
    · simp only [hs, gt_iff_lt, decide_False, if_false, Bool.not_false,
        false_and, false_implies, and_true]
      by_cases h1 : (zmq.zmq_msg_send ⟨leBytes 16 event, 0⟩ self.socket w).1 = -1
      · simp [h1]
      · simp [h1]

/-- C1: for every transport, `publish( event, data, size )` returns (it
raises nothing) and leaves the publisher's members as they were; the value
it returns is `true` exactly when the transport accepts every frame it has
to send: `zmq_msg_send` does not answer -1 to the header frame and, when
`data` is non-null and `size > 0`, does not answer -1 to the payload frame
sent after it.  The sends it records are the answers of the transport, and
`true` is returned exactly when the frames sent are the frames it had to
send and none was answered with -1. -/
theorem publish_true_iff_all_frames_sent {W : Type} (zmq : Transport W)
    (bigEndian : Bool) (self : PublisherState) (event : Nat) (data : Pointer)
    (size : Nat) (w : W) :
    ∃ b : Bool,
      (publish zmq bigEndian self event data size w).outcome
        = Outcome.returned (b, self) ∧
      (b = true ↔
        ((zmq.zmq_msg_send (headerFrame event data size) self.socket w).1
            ≠ -1 ∧
          (data.isSome = true ∧ 0 < size →
            (zmq.zmq_msg_send (payloadFrame data size) self.socket
              (zmq.zmq_msg_send (headerFrame event data size)
                self.socket w).2).1 ≠ -1))) ∧
      (b = true ↔
        ((publish zmq bigEndian self event data size w).trace.map SendCall.frame
            = requiredFrames event data size ∧
          ∀ c ∈ (publish zmq bigEndian self event data size w).trace,
            c.ret ≠ -1)) ∧
      (publish zmq bigEndian self event data size w).trace.head?
        = some ⟨headerFrame event data size, self.socket,
            (zmq.zmq_msg_send (headerFrame event data size) self.socket
              w).1⟩ ∧
      ∀ c ∈ (publish zmq bigEndian self event data size w).trace.tail,
        c = ⟨payloadFrame data size, self.socket,
          (zmq.zmq_msg_send (payloadFrame data size) self.socket
            (zmq.zmq_msg_send (headerFrame event data size)
              self.socket w).2).1⟩ := by
  rw [publish_run]
  refine ⟨_, rfl, by simp only [decide_eq_true_eq], ?_, rfl, ?_⟩
  · by_cases hp : data.isSome = true ∧ 0 < size
    · by_cases h1 : (zmq.zmq_msg_send (headerFrame event data size)
          self.socket w).1 = -1
      · simp [hp, h1, requiredFrames]
      · by_cases h2 : (zmq.zmq_msg_send (payloadFrame data size) self.socket
            (zmq.zmq_msg_send (headerFrame event data size)
              self.socket w).2).1 = -1
        · simp [hp, h1, h2, requiredFrames]
        · simp [hp, h1, h2, requiredFrames]
    · by_cases h1 : (zmq.zmq_msg_send (headerFrame event data size)
          self.socket w).1 = -1
      · simp [hp, h1, requiredFrames]
      · simp [hp, h1, requiredFrames]
  · intro c hc
    simp only [List.tail_cons] at hc
    split at hc
    · simpa using hc
    · cases hc

/-- C2: for every transport, the sends of `publish( event, data, size )` are:
first the header frame, the 16 little-endian bytes of the identifier, flagged
`ZMQ_SNDMORE` exactly when `data` is non-null and `size > 0`; then, exactly
when that condition holds and the transport did not answer -1 to the header
send, the payload frame, the `size` bytes at `data` with no flag, sent in the
world the header send left; and nothing else.  Each recorded answer is the
answer of the transport.  `publish( event )` sends the header frame alone,
without the flag. -/
theorem publish_sends_header_then_payload {W : Type} (zmq : Transport W)
    (bigEndian : Bool) (self : PublisherState) (event : Nat) (data : Pointer)
    (size : Nat) (w : W) :
    (publish zmq bigEndian self event data size w).trace
      = ⟨⟨leBytes 16 event,
            if data.isSome = true ∧ 0 < size then ZMQ_SNDMORE else 0⟩,
          self.socket,
          (zmq.zmq_msg_send
            ⟨leBytes 16 event,
              if data.isSome = true ∧ 0 < size then ZMQ_SNDMORE else 0⟩
            self.socket w).1⟩ ::
        (if data.isSome = true ∧ 0 < size ∧
            (zmq.zmq_msg_send
              ⟨leBytes 16 event,
                if data.isSome = true ∧ 0 < size then ZMQ_SNDMORE else 0⟩
              self.socket w).1 ≠ -1 then
          [⟨⟨(List.range size).map (data.getD (fun _ => 0)), 0⟩, self.socket,
            (zmq.zmq_msg_send
              ⟨(List.range size).map (data.getD (fun _ => 0)), 0⟩ self.socket
              (zmq.zmq_msg_send
                ⟨leBytes 16 event,
                  if data.isSome = true ∧ 0 < size then ZMQ_SNDMORE else 0⟩
                self.socket w).2).1⟩]
        else []) ∧
    (publish zmq bigEndian self event data size w).world
      = (if data.isSome = true ∧ 0 < size ∧
            (zmq.zmq_msg_send
              ⟨leBytes 16 event,
                if data.isSome = true ∧ 0 < size then ZMQ_SNDMORE else 0⟩
              self.socket w).1 ≠ -1 then
          (zmq.zmq_msg_send
            ⟨(List.range size).map (data.getD (fun _ => 0)), 0⟩ self.socket
            (zmq.zmq_msg_send
              ⟨leBytes 16 event,
                if data.isSome = true ∧ 0 < size then ZMQ_SNDMORE else 0⟩
              self.socket w).2).2
        else
          (zmq.zmq_msg_send
            ⟨leBytes 16 event,
              if data.isSome = true ∧ 0 < size then ZMQ_SNDMORE else 0⟩
            self.socket w).2) ∧
    (leBytes 16 event).length = 16 ∧
    ((List.range size).map (data.getD (fun _ => 0))).length = size ∧
    (publishEvent zmq bigEndian self event w).trace
      = [⟨⟨leBytes 16 event, 0⟩, self.socket,
          (zmq.zmq_msg_send ⟨leBytes 16 event, 0⟩ self.socket w).1⟩] ∧
    (publishEvent zmq bigEndian self event w).world
      = (zmq.zmq_msg_send ⟨leBytes 16 event, 0⟩ self.socket w).2 := by
  refine ⟨?_, ?_, leBytes_length _ _, by simp, ?_, ?_⟩
  · rw [publish_run]
    rfl
  · rw [publish_run]
    rfl
  · unfold publishEvent
    rw [publish_run]
    simp [headerFrame]
  · unfold publishEvent
    rw [publish_run]
    simp [headerFrame]

/-- On a transport that refuses the header nothing follows the header frame
although there is a payload, and `false` is returned; so it is when the
payload is refused. -/
theorem publish_sample_refused :
    (publish scriptedTransport false ⟨1, ⟨"tcp", "*", 0⟩, "s"⟩ 5
        (some fun k => k + 65) 3 [-1, 3]).trace
      = [⟨⟨[5, 0, 0, 0, 0, 0, 0, 0, 0, 0, 0, 0, 0, 0, 0, 0], 2⟩, 1, -1⟩] ∧
    (publish scriptedTransport false ⟨1, ⟨"tcp", "*", 0⟩, "s"⟩ 5
        (some fun k => k + 65) 3 [-1, 3]).outcome
      = .returned (false, ⟨1, ⟨"tcp", "*", 0⟩, "s"⟩) ∧
    (publish scriptedTransport false ⟨1, ⟨"tcp", "*", 0⟩, "s"⟩ 5
        (some fun k => k + 65) 3 [16, -1]).outcome
      = .returned (false, ⟨1, ⟨"tcp", "*", 0⟩, "s"⟩) := by
  decide

/-! ## One poll round -/

theorem gather_fold {W : Type} (env : Env W) (w : W) (l : List Nat)
    (acc : List Socket × List Nat) :
    l.foldl
      (fun (acc : List Socket × List Nat) receiver =>
        let before := acc.1.length
        let sockets := acc.1 ++ env.addSockets receiver w
        (sockets, acc.2 ++ [sockets.length - before])) acc
      = (acc.1 ++ (l.map (fun r => env.addSockets r w)).flatten,
         acc.2 ++ l.map (fun r => (env.addSockets r w).length)) := by
  induction l generalizing acc with
  | nil => simp
  | cons r l ih =>
    simp only [List.foldl_cons]
    rw [ih]
    simp

theorem gather_eq {W : Type} (env : Env W) (shared : List Nat) (w : W) :
    gather env shared w
      = (flatSockets env shared w,
         shared.map (fun r => (env.addSockets r w).length)) := by
  unfold gather flatSockets
  rw [gather_fold]
  simp

theorem advance_spec (q : List Nat) :
    ∀ (done : List Nat) (cur : Nat) (todo : List Nat) (interval : Nat),
      q.length = todo.length → 0 < interval + q.sum →
      ∃ (done1 : List Nat) (cur1 : Nat) (todo1 : List Nat) (m1 : Nat)
        (q1 : List Nat),
        advance q done.length interval = some (done1.length, m1, q1) ∧
        done ++ cur :: todo = done1 ++ cur1 :: todo1 ∧
        q1.length = todo1.length ∧
        ownersFrom cur interval todo q = cur1 :: ownersFrom cur1 m1 todo1 q1 ∧
        interval + q.sum = m1 + q1.sum + 1 := by
  induction q with
  | nil =>
    intro done cur todo interval hlen hpos
    cases interval with
    | zero => simp at hpos
    | succ m =>
      exact ⟨done, cur, todo, m, [], by simp [advance], rfl, hlen,
        by simp [ownersFrom, List.replicate_succ], by simp⟩
  | cons k q ih =>
    intro done cur todo interval hlen hpos
    cases interval with
    | succ m =>
      exact ⟨done, cur, todo, m, k :: q, by simp [advance], rfl, hlen,
        by simp [ownersFrom, List.replicate_succ], by simp only [List.sum_cons]; omega⟩
    | zero =>
      cases todo with
      | nil => simp at hlen
      | cons t todo =>
        have hlen1 : q.length = todo.length := by simpa using hlen
        have hpos1 : 0 < k + q.sum := by simpa using hpos
        obtain ⟨done1, cur1, todo1, m1, q1, h1, h2, h3, h4, h5⟩ :=
          ih (done ++ [cur]) t todo k hlen1 hpos1
        refine ⟨done1, cur1, todo1, m1, q1, ?_, ?_, h3, ?_, ?_⟩
        · simpa [advance] using h1
        · simpa using h2
        · simpa [ownersFrom] using h4
        · simpa using h5

theorem walk_spec {W : Type} (env : Env W) (shared : List Nat)
    (sockets : List Socket) :
    ∀ (done : List Nat) (cur : Nat) (todo : List Nat) (interval : Nat)
      (q : List Nat) (hd : Bool) (w : W),
      shared = done ++ cur :: todo → q.length = todo.length →
      sockets.length ≤ interval + q.sum →
      (walk env shared sockets done.length interval q hd w).ok = true ∧
      (walk env shared sockets done.length interval q hd w).haveData
        = (hd || sockets.any readable) ∧
      (walk env shared sockets done.length interval q hd w).iterator
        < shared.length ∧
      (walk env shared sockets done.length interval q hd w).world
        = (expectedCalls (ownersFrom cur interval todo q) sockets).foldl
            (fun w p => env.process p.1 p.2 0 w) w ∧
      (walk env shared sockets done.length interval q hd w).trace
        = (expectedCalls (ownersFrom cur interval todo q) sockets).map
            (fun p => Event.process p.1 p.2 0) := by
  induction sockets with
  | nil =>
    intro done cur todo interval q hd w hsh _ _
    subst hsh
    simp [walk, expectedCalls]
  | cons s rest ih =>
    intro done cur todo interval q hd w hsh hlen hle
    have hpos : 0 < interval + q.sum := by
      simp only [List.length_cons] at hle
      omega
    obtain ⟨done1, cur1, todo1, m1, q1, h1, h2, h3, h4, h5⟩ :=
      advance_spec q done cur todo interval hlen hpos
    have hsh1 : shared = done1 ++ cur1 :: todo1 := hsh.trans h2
    have hle1 : rest.length ≤ m1 + q1.sum := by
      simp only [List.length_cons] at hle
      omega
    have hget : shared[done1.length]? = some cur1 := by
      rw [hsh1, List.getElem?_append_right (Nat.le_refl _)]
      simp
    unfold walk
    rw [h1, h4]
    by_cases hr : readable s = true
    · have hi := ih done1 cur1 todo1 m1 q1 true (env.process cur1 s 0 w)
        hsh1 h3 hle1
      simp only [hr, if_true, hget, expectedCalls, List.zip_cons_cons,
        List.filter_cons, List.foldl_cons, List.map_cons, List.any_cons,
        Bool.true_or, Bool.or_true]
      simp only [expectedCalls, Bool.true_or] at hi
      exact ⟨hi.1, hi.2.1, hi.2.2.1, hi.2.2.2.1, by rw [hi.2.2.2.2]⟩
    · have hi := ih done1 cur1 todo1 m1 q1 hd w hsh1 h3 hle1
      have hr0 : readable s = false := by simpa using hr
      simp only [hr0, expectedCalls, List.zip_cons_cons,
        List.filter_cons, List.any_cons, Bool.false_or]
      simp only [expectedCalls] at hi
      simpa using hi

theorem setRevents_length (sockets : List Socket) (revents : Nat → Nat) :
    (setRevents sockets revents).length = sockets.length := by
  simp [setRevents]

theorem zipWith_replicate_map (f : Nat → Nat) (todo : List Nat) :
    List.zipWith (fun k r => List.replicate k r) (todo.map f) todo
      = todo.map (fun r => List.replicate (f r) r) := by
  induction todo with
  | nil => rfl
  | cons t todo ih => simp [ih]

theorem flatSockets_length {W : Type} (env : Env W) (shared : List Nat)
    (w : W) :
    (flatSockets env shared w).length
      = (shared.map (fun r => (env.addSockets r w).length)).sum := by
  induction shared with
  | nil => rfl
  | cons r shared ih =>
    simp only [flatSockets, List.map_cons, List.flatten_cons,
      List.length_append, List.sum_cons] at ih ⊢
    rw [ih]

theorem owners_length {W : Type} (env : Env W) (shared : List Nat) (w : W) :
    (owners env shared w).length = (flatSockets env shared w).length := by
  induction shared with
  | nil => rfl
  | cons r shared ih =>
    simp only [flatSockets, owners, List.map_cons, List.flatten_cons,
      List.length_append, List.length_replicate] at ih ⊢
    rw [ih]

/-- What a poll round does once `zmq_poll` returned neither -1 nor 0, with
at least one receiver attached. -/
theorem pollRound_default {W : Type} (env : Env W) (shared : List Nat)
    (timeout : Nat) (w : W) (hne : shared ≠ [])
    (h1 : (env.zmq_poll (flatSockets env shared w) timeout w).1 ≠ -1)
    (h0 : (env.zmq_poll (flatSockets env shared w) timeout w).1 ≠ 0) :
    (pollRound env shared timeout w).ending
      = .walked ((setRevents (flatSockets env shared w)
          (env.zmq_poll (flatSockets env shared w) timeout w).2.1).any
            readable) ∧
    (pollRound env shared timeout w).iterator < shared.length ∧
    (pollRound env shared timeout w).world
      = (expectedCalls (owners env shared w)
          (setRevents (flatSockets env shared w)
            (env.zmq_poll (flatSockets env shared w) timeout w).2.1)).foldl
          (fun w p => env.process p.1 p.2 0 w)
          (env.zmq_poll (flatSockets env shared w) timeout w).2.2 ∧
    (pollRound env shared timeout w).trace
      = Event.poll (flatSockets env shared w) timeout
          (env.zmq_poll (flatSockets env shared w) timeout w).1 ::
        (expectedCalls (owners env shared w)
          (setRevents (flatSockets env shared w)
            (env.zmq_poll (flatSockets env shared w) timeout w).2.1)).map
          (fun p => Event.process p.1 p.2 0) := by
  cases shared with
  | nil => exact absurd rfl hne
  | cons r0 rest =>
    have hw := walk_spec env (r0 :: rest)
      (setRevents (flatSockets env (r0 :: rest) w)
        (env.zmq_poll (flatSockets env (r0 :: rest) w) timeout w).2.1)
      [] r0 rest (env.addSockets r0 w).length
      (rest.map (fun r => (env.addSockets r w).length)) false
      (env.zmq_poll (flatSockets env (r0 :: rest) w) timeout w).2.2
      rfl (by simp)
      (by rw [setRevents_length, flatSockets_length]; simp)
    have hown : ownersFrom r0 (env.addSockets r0 w).length rest
        (rest.map (fun r => (env.addSockets r w).length))
        = owners env (r0 :: rest) w := by
      simp [ownersFrom, owners, zipWith_replicate_map]
    rw [hown] at hw
    simp only [List.length_nil, Bool.false_or] at hw
    unfold pollRound
    simp only [gather_eq, h1, h0, if_false, List.map_cons, hw.1, if_true]
    exact ⟨by rw [hw.2.1], hw.2.2.1, hw.2.2.2.1, by rw [hw.2.2.2.2]⟩

theorem pollRound_failed {W : Type} (env : Env W) (shared : List Nat)
    (timeout : Nat) (w : W)
    (h1 : (env.zmq_poll (flatSockets env shared w) timeout w).1 = -1) :
    pollRound env shared timeout w
      = ⟨.pollFailed, 0,
          (env.zmq_poll (flatSockets env shared w) timeout w).2.2,
          [Event.poll (flatSockets env shared w) timeout (-1)]⟩ := by
  unfold pollRound
  simp only [gather_eq, h1, if_true]

theorem pollRound_timedOut {W : Type} (env : Env W) (shared : List Nat)
    (timeout : Nat) (w : W)
    (h0 : (env.zmq_poll (flatSockets env shared w) timeout w).1 = 0) :
    pollRound env shared timeout w
      = ⟨.timedOut, 0,
          (env.zmq_poll (flatSockets env shared w) timeout w).2.2,
          [Event.poll (flatSockets env shared w) timeout 0]⟩ := by
  unfold pollRound
  simp [gather_eq, h0]

theorem owners_append {W : Type} (env : Env W) (pre post : List Nat) (w : W) :
    owners env (pre ++ post) w = owners env pre w ++ owners env post w := by
  simp [owners]

/-- C10: in a poll round of `_receive` over a non-empty flat vector, when
`zmq_poll` reports readiness (it returns neither -1 nor 0) the calls after
the poll are exactly `process( socket, 0 )` for the sockets flagged
`ZMQ_POLLIN`, in the order of the flat vector, each on the receiver that
contributed it; the round runs into no undefined behaviour (no read of the
empty interval deque, no dereference of a past-the-end iterator) and the
iterator ends on a receiver.  When `zmq_poll` returns -1 or 0 the round makes
no `process` call.  The owner of position `j` is the receiver `r` with
`k_1+..+k_(r-1) ≤ j < k_1+..+k_r`. -/
theorem poll_round_dispatches_to_owners {W : Type} (env : Env W)
    (shared : List Nat) (timeout : Nat) (w : W)
    (hne : flatSockets env shared w ≠ []) :
    ((env.zmq_poll (flatSockets env shared w) timeout w).1 ≠ -1 →
      (env.zmq_poll (flatSockets env shared w) timeout w).1 ≠ 0 →
      (pollRound env shared timeout w).trace
        = Event.poll (flatSockets env shared w) timeout
            (env.zmq_poll (flatSockets env shared w) timeout w).1 ::
          (((owners env shared w).zip
              (setRevents (flatSockets env shared w)
                (env.zmq_poll (flatSockets env shared w) timeout w).2.1)).filter
            (fun p => readable p.2)).map
            (fun p => Event.process p.1 p.2 0) ∧
      (pollRound env shared timeout w).ending ≠ .undefinedBehaviour ∧
      (pollRound env shared timeout w).iterator < shared.length) ∧
    ((env.zmq_poll (flatSockets env shared w) timeout w).1 = -1 ∨
        (env.zmq_poll (flatSockets env shared w) timeout w).1 = 0 →
      (pollRound env shared timeout w).trace
        = [Event.poll (flatSockets env shared w) timeout
            (env.zmq_poll (flatSockets env shared w) timeout w).1] ∧
      (pollRound env shared timeout w).ending ≠ .undefinedBehaviour) ∧
    (owners env shared w).length = (flatSockets env shared w).length ∧
    ∀ (before : List Nat) (r : Nat) (behind : List Nat) (j : Nat),
      shared = before ++ r :: behind →
      (flatSockets env before w).length ≤ j →
      j < (flatSockets env before w).length + (env.addSockets r w).length →
      (owners env shared w)[j]? = some r := by
  have hsh : shared ≠ [] := by
    intro h
    rw [h] at hne
    exact hne rfl
  refine ⟨?_, ?_, owners_length env shared w, ?_⟩
  · intro h1 h0
    have h := pollRound_default env shared timeout w hsh h1 h0
    refine ⟨h.2.2.2, ?_, h.2.1⟩
    rw [h.1]
    simp
  · intro h
    rcases h with h | h
    · rw [pollRound_failed env shared timeout w h, h]
      simp
    · rw [pollRound_timedOut env shared timeout w h, h]
      simp
  · intro before r behind j hshared hlo hhi
    rw [hshared, owners_append, ← owners_length] at *
    rw [List.getElem?_append_right hlo]
    have : owners env (r :: behind) w
        = List.replicate (env.addSockets r w).length r ++ owners env behind w := by
      simp [owners]
    rw [this, List.getElem?_append_left (by simp; omega)]
    simp [List.getElem?_replicate]
    omega

/-- C10, at a concrete input: receivers 10, 11, 12, 13 of the queue model,
with messages pending on sockets 2 and 3. -/
theorem poll_round_dispatches_to_owners_witness :
    flatSockets (queueEnv sampleSockets) [10, 11, 12, 13] ⟨samplePending, 0⟩
      ≠ [] ∧
    (pollRound (queueEnv sampleSockets) [10, 11, 12, 13] 10
        ⟨samplePending, 0⟩).trace
      = [Event.poll [⟨1, 0, 1, 0⟩, ⟨2, 0, 1, 0⟩, ⟨3, 0, 1, 0⟩] 10 2,
         Event.process 11 ⟨2, 0, 1, 1⟩ 0,
         Event.process 13 ⟨3, 0, 1, 1⟩ 0] := by
  refine ⟨by decide, ?_⟩
  have h := ((poll_round_dispatches_to_owners (queueEnv sampleSockets)
    [10, 11, 12, 13] 10 ⟨samplePending, 0⟩ (by decide)).1 (by decide)
    (by decide)).1
  rw [h]
  decide

/-! ## The rounds of `_receive` -/

theorem processEvents_all (calls : List (Nat × Socket)) :
    ∀ e ∈ processEvents calls, ∃ r s, e = Event.process r s 0 := by
  intro e he
  simp only [processEvents, List.mem_map] at he
  obtain ⟨p, _, rfl⟩ := he
  exact ⟨p.1, p.2, rfl⟩

/-- The four ways a poll round can go, by the value of `zmq_poll`. -/
theorem pollRound_cases {W : Type} (env : Env W) (shared : List Nat)
    (timeout : Nat) (w : W) :
    ∃ (calls : List (Nat × Socket)),
      (pollRound env shared timeout w).trace
        = Event.poll (flatSockets env shared w) timeout
            (env.zmq_poll (flatSockets env shared w) timeout w).1 ::
          processEvents calls ∧
      (((env.zmq_poll (flatSockets env shared w) timeout w).1 = -1 ∧
          (pollRound env shared timeout w).ending = .pollFailed ∧ calls = []) ∨
        ((env.zmq_poll (flatSockets env shared w) timeout w).1 = 0 ∧
          (pollRound env shared timeout w).ending = .timedOut ∧ calls = []) ∨
        ((env.zmq_poll (flatSockets env shared w) timeout w).1 ≠ -1 ∧
          (env.zmq_poll (flatSockets env shared w) timeout w).1 ≠ 0 ∧
          shared = [] ∧
          (pollRound env shared timeout w).ending = .undefinedBehaviour ∧
          calls = []) ∨
        ((env.zmq_poll (flatSockets env shared w) timeout w).1 ≠ -1 ∧
          (env.zmq_poll (flatSockets env shared w) timeout w).1 ≠ 0 ∧
          shared ≠ [] ∧
          calls = expectedCalls (owners env shared w)
            (setRevents (flatSockets env shared w)
              (env.zmq_poll (flatSockets env shared w) timeout w).2.1) ∧
          (pollRound env shared timeout w).ending
            = .walked ((setRevents (flatSockets env shared w)
                (env.zmq_poll (flatSockets env shared w) timeout w).2.1).any
                  readable) ∧
          (pollRound env shared timeout w).world
            = calls.foldl (fun w p => env.process p.1 p.2 0 w)
                (env.zmq_poll (flatSockets env shared w) timeout w).2.2)) := by
  by_cases h1 : (env.zmq_poll (flatSockets env shared w) timeout w).1 = -1
  · refine ⟨[], ?_, Or.inl ⟨h1, ?_, rfl⟩⟩
    · rw [pollRound_failed env shared timeout w h1, h1]
      rfl
    · rw [pollRound_failed env shared timeout w h1]
  · by_cases h0 : (env.zmq_poll (flatSockets env shared w) timeout w).1 = 0
    · refine ⟨[], ?_, Or.inr (Or.inl ⟨h0, ?_, rfl⟩)⟩
      · rw [pollRound_timedOut env shared timeout w h0, h0]
        rfl
      · rw [pollRound_timedOut env shared timeout w h0]
    · by_cases hs : shared = []
      · refine ⟨[], ?_, Or.inr (Or.inr (Or.inl ⟨h1, h0, hs, ?_, rfl⟩))⟩
        · subst hs
          unfold pollRound
          simp [gather_eq, h1, h0, processEvents]
        · subst hs
          unfold pollRound
          simp [gather_eq, h1, h0]
      · have h := pollRound_default env shared timeout w hs h1 h0
        exact ⟨_, h.2.2.2, Or.inr (Or.inr (Or.inr
          ⟨h1, h0, hs, rfl, h.1, h.2.2.1⟩))⟩

theorem expectedCalls_ne_nil (owners : List Nat) (sockets : List Socket)
    (hlen : owners.length = sockets.length)
    (hany : sockets.any readable = true) :
    expectedCalls owners sockets ≠ [] := by
  induction sockets generalizing owners with
  | nil => simp at hany
  | cons s rest ih =>
    cases owners with
    | nil => simp at hlen
    | cons o owners =>
      simp only [List.any_cons, Bool.or_eq_true] at hany
      by_cases hr : readable s = true
      · simp [expectedCalls, hr]
      · have hrest : rest.any readable = true := by
          rcases hany with h | h
          · exact absurd h hr
          · exact h
        have := ih owners (by simpa using hlen) hrest
        simp only [expectedCalls, List.zip_cons_cons, List.filter_cons] at this ⊢
        split
        · simp
        · exact this

theorem expectedCalls_eq_nil (owners : List Nat) (sockets : List Socket)
    (hany : sockets.any readable = false) :
    expectedCalls owners sockets = [] := by
  simp only [expectedCalls, List.filter_eq_nil_iff]
  intro p hp
  have hmem : p.2 ∈ sockets := (List.of_mem_zip hp).2
  have := List.any_eq_false.mp hany p.2 hmem
  simpa using this

theorem receiveRounds_pollFailed {W : Type} (env : Env W) (shared : List Nat)
    (fuel : Nat) (hd : Bool) (t : Nat) (w : W)
    (h : (pollRound env shared t w).ending = .pollFailed) :
    receiveRounds env shared (fuel + 1) hd t w
      = ⟨.threw .pollError, (pollRound env shared t w).world,
          (pollRound env shared t w).trace⟩ := by
  simp only [receiveRounds, h]

theorem receiveRounds_timedOut {W : Type} (env : Env W) (shared : List Nat)
    (fuel : Nat) (hd : Bool) (t : Nat) (w : W)
    (h : (pollRound env shared t w).ending = .timedOut) :
    receiveRounds env shared (fuel + 1) hd t w
      = ⟨.returned hd, (pollRound env shared t w).world,
          (pollRound env shared t w).trace⟩ := by
  simp only [receiveRounds, h]

theorem receiveRounds_undefined {W : Type} (env : Env W) (shared : List Nat)
    (fuel : Nat) (hd : Bool) (t : Nat) (w : W)
    (h : (pollRound env shared t w).ending = .undefinedBehaviour) :
    receiveRounds env shared (fuel + 1) hd t w
      = ⟨.undefinedBehaviour, (pollRound env shared t w).world,
          (pollRound env shared t w).trace⟩ := by
  simp only [receiveRounds, h]

theorem receiveRounds_walked_false {W : Type} (env : Env W)
    (shared : List Nat) (fuel : Nat) (hd : Bool) (t : Nat) (w : W)
    (h : (pollRound env shared t w).ending = .walked false) :
    receiveRounds env shared (fuel + 1) hd t w
      = ⟨.returned true, (pollRound env shared t w).world,
          (pollRound env shared t w).trace⟩ := by
  simp only [receiveRounds, h]

theorem receiveRounds_walked_true {W : Type} (env : Env W)
    (shared : List Nat) (fuel : Nat) (hd : Bool) (t : Nat) (w : W)
    (h : (pollRound env shared t w).ending = .walked true) :
    receiveRounds env shared (fuel + 1) hd t w
      = ⟨(receiveRounds env shared fuel true 0
            (pollRound env shared t w).world).outcome,
          (receiveRounds env shared fuel true 0
            (pollRound env shared t w).world).world,
          (pollRound env shared t w).trace ++
            (receiveRounds env shared fuel true 0
              (pollRound env shared t w).world).trace⟩ := by
  simp only [receiveRounds, h]

/-- A round that walked with `haveData` set made a `process` call. -/
theorem pollRound_walked_true_processes {W : Type} (env : Env W)
    (shared : List Nat) (t : Nat) (w : W)
    (h : (pollRound env shared t w).ending = .walked true) :
    ∃ r s, Event.process r s 0 ∈ (pollRound env shared t w).trace := by
  obtain ⟨calls, htr, hc⟩ := pollRound_cases env shared t w
  rcases hc with ⟨_, he, _⟩ | ⟨_, he, _⟩ | ⟨_, _, _, he, _⟩ | ⟨_, _, _, hcalls, he, _⟩
  · rw [he] at h; cases h
  · rw [he] at h; cases h
  · rw [he] at h; cases h
  · rw [he] at h
    have hany : (setRevents (flatSockets env shared w)
        (env.zmq_poll (flatSockets env shared w) t w).2.1).any readable
          = true := by
      injection h
    have hne := expectedCalls_ne_nil (owners env shared w) _
      (by rw [owners_length, setRevents_length]) hany
    rw [← hcalls] at hne
    cases calls with
    | nil => exact absurd rfl hne
    | cons c calls =>
      exact ⟨c.1, c.2, by rw [htr]; simp [processEvents]⟩

/-- The rounds of `_receive` return `false` only from the first round, on a poll that
returned 0, after that one poll and nothing else. -/
theorem receiveRounds_false {W : Type} (env : Env W) (shared : List Nat)
    (fuel : Nat) :
    ∀ (hd : Bool) (t : Nat) (w : W),
      (receiveRounds env shared fuel hd t w).outcome = .returned false →
      hd = false ∧
      (receiveRounds env shared fuel hd t w).trace
        = [Event.poll (flatSockets env shared w) t 0] := by
  induction fuel with
  | zero =>
    intro hd t w h
    simp [receiveRounds] at h
  | succ fuel ih =>
    intro hd t w h
    cases hend : (pollRound env shared t w).ending with
    | pollFailed =>
      rw [receiveRounds_pollFailed env shared fuel hd t w hend] at h
      cases h
    | undefinedBehaviour =>
      rw [receiveRounds_undefined env shared fuel hd t w hend] at h
      cases h
    | timedOut =>
      rw [receiveRounds_timedOut env shared fuel hd t w hend] at h ⊢
      have hhd : hd = false := by
        injection h with h
      refine ⟨hhd, ?_⟩
      obtain ⟨calls, htr, hc⟩ := pollRound_cases env shared t w
      rcases hc with ⟨_, he, _⟩ | ⟨h0, _, hn⟩ | ⟨_, _, _, he, _⟩ | ⟨_, _, _, _, he, _⟩
      · rw [he] at hend; cases hend
      · simp only [htr, hn, h0, processEvents, List.map_nil]
      · rw [he] at hend; cases hend
      · rw [he] at hend; cases hend
    | walked b =>
      cases b with
      | false =>
        rw [receiveRounds_walked_false env shared fuel hd t w hend] at h
        cases h
      | true =>
        rw [receiveRounds_walked_true env shared fuel hd t w hend] at h
        have := (ih true 0 _ h).1
        cases this

/-- Every call of `_receive` after its first poll is `process( socket, 0 )`
or a poll with timeout 0; the first call is the poll with the timeout given. -/
theorem receiveRounds_shape {W : Type} (env : Env W) (shared : List Nat)
    (fuel : Nat) :
    ∀ (hd : Bool) (t : Nat) (w : W),
      (receiveRounds env shared fuel hd t w).trace = [] ∨
      ∃ rest,
        (receiveRounds env shared fuel hd t w).trace
          = Event.poll (flatSockets env shared w) t
              (env.zmq_poll (flatSockets env shared w) t w).1 :: rest ∧
        ∀ e ∈ rest, (∃ r s, e = Event.process r s 0) ∨
          (∃ sockets ret, e = Event.poll sockets 0 ret) := by
  induction fuel with
  | zero =>
    intro hd t w
    exact Or.inl rfl
  | succ fuel ih =>
    intro hd t w
    right
    obtain ⟨calls, htr, -⟩ := pollRound_cases env shared t w
    have hcalls : ∀ e ∈ processEvents calls,
        (∃ r s, e = Event.process r s 0) ∨
          (∃ sockets ret, e = Event.poll sockets 0 ret) :=
      fun e he => Or.inl (processEvents_all calls e he)
    cases hend : (pollRound env shared t w).ending with
    | pollFailed =>
      rw [receiveRounds_pollFailed env shared fuel hd t w hend]
      exact ⟨_, htr, hcalls⟩
    | undefinedBehaviour =>
      rw [receiveRounds_undefined env shared fuel hd t w hend]
      exact ⟨_, htr, hcalls⟩
    | timedOut =>
      rw [receiveRounds_timedOut env shared fuel hd t w hend]
      exact ⟨_, htr, hcalls⟩
    | walked b =>
      cases b with
      | false =>
        rw [receiveRounds_walked_false env shared fuel hd t w hend]
        exact ⟨_, htr, hcalls⟩
      | true =>
        rw [receiveRounds_walked_true env shared fuel hd t w hend]
        refine ⟨processEvents calls ++ (receiveRounds env shared fuel true 0
          (pollRound env shared t w).world).trace, by simp [htr], ?_⟩
        intro e he
        rcases List.mem_append.mp he with he | he
        · exact hcalls e he
        · rcases ih true 0 (pollRound env shared t w).world with h | ⟨rest, h, hrest⟩
          · rw [h] at he
            cases he
          · rw [h] at he
            rcases List.mem_cons.mp he with he | he
            · exact Or.inr ⟨_, _, he⟩
            · exact hrest e he

/-- With a consistent transport, `_receive` returns `true` only after a
`process` call (or when entered with `haveData` set). -/
theorem receiveRounds_true {W : Type} (env : Env W) (shared : List Nat)
    (hpoll : ConsistentPoll env) (fuel : Nat) :
    ∀ (hd : Bool) (t : Nat) (w : W),
      (receiveRounds env shared fuel hd t w).outcome = .returned true →
      hd = true ∨
      ∃ r s, Event.process r s 0 ∈ (receiveRounds env shared fuel hd t w).trace := by
  induction fuel with
  | zero =>
    intro hd t w h
    simp [receiveRounds] at h
  | succ fuel ih =>
    intro hd t w h
    cases hend : (pollRound env shared t w).ending with
    | pollFailed =>
      rw [receiveRounds_pollFailed env shared fuel hd t w hend] at h
      cases h
    | undefinedBehaviour =>
      rw [receiveRounds_undefined env shared fuel hd t w hend] at h
      cases h
    | timedOut =>
      rw [receiveRounds_timedOut env shared fuel hd t w hend] at h
      left
      injection h with h
    | walked b =>
      cases b with
      | false =>
        exfalso
        obtain ⟨calls, -, hc⟩ := pollRound_cases env shared t w
        rcases hc with ⟨_, he, _⟩ | ⟨_, he, _⟩ | ⟨_, _, _, he, _⟩ | ⟨h1, h0, _, _, he, _⟩
        · rw [he] at hend; cases hend
        · rw [he] at hend; cases hend
        · rw [he] at hend; cases hend
        · rw [he, hpoll _ t w h0 h1] at hend
          cases hend
      | true =>
        right
        obtain ⟨r, s, hmem⟩ := pollRound_walked_true_processes env shared t w hend
        rw [receiveRounds_walked_true env shared fuel hd t w hend]
        exact ⟨r, s, List.mem_append_left _ hmem⟩

/-! ## The loop of `receive` -/

theorem receiveLoop_done {W : Type} (env : Env W) (shared : List Nat)
    (fuel timeout : Nat) (startTime : Int) (loops : Nat) (w : W)
    (hr : (iterationReceive env shared fuel timeout startTime w).outcome
      = .returned false)
    (he : timeout ≤ elapsedOf startTime (env.now (updateAll env shared w)).1) :
    receiveLoop env shared fuel timeout startTime (loops + 1) w
      = ⟨.returned false,
          (iterationReceive env shared fuel timeout startTime w).world,
          iterationTrace env shared fuel timeout startTime w⟩ := by
  unfold iterationReceive at hr
  simp only [receiveLoop, hr, ge_iff_le, he, if_true, iterationTrace,
    iterationReceive]

theorem receiveLoop_again {W : Type} (env : Env W) (shared : List Nat)
    (fuel timeout : Nat) (startTime : Int) (loops : Nat) (w : W)
    (hr : (iterationReceive env shared fuel timeout startTime w).outcome
      = .returned false)
    (he : ¬ timeout ≤ elapsedOf startTime (env.now (updateAll env shared w)).1) :
    receiveLoop env shared fuel timeout startTime (loops + 1) w
      = ⟨(receiveLoop env shared fuel timeout startTime loops
            (iterationReceive env shared fuel timeout startTime w).world).outcome,
          (receiveLoop env shared fuel timeout startTime loops
            (iterationReceive env shared fuel timeout startTime w).world).world,
          iterationTrace env shared fuel timeout startTime w ++
            (receiveLoop env shared fuel timeout startTime loops
              (iterationReceive env shared fuel timeout startTime w).world).trace⟩ := by
  unfold iterationReceive at hr
  simp only [receiveLoop, hr, ge_iff_le, he, if_false, iterationTrace,
    iterationReceive]

theorem receiveLoop_leave {W : Type} (env : Env W) (shared : List Nat)
    (fuel timeout : Nat) (startTime : Int) (loops : Nat) (w : W)
    (hr : (iterationReceive env shared fuel timeout startTime w).outcome
      ≠ .returned false) :
    receiveLoop env shared fuel timeout startTime (loops + 1) w
      = ⟨(iterationReceive env shared fuel timeout startTime w).outcome,
          (iterationReceive env shared fuel timeout startTime w).world,
          iterationTrace env shared fuel timeout startTime w⟩ := by
  unfold iterationReceive at hr
  simp only [receiveLoop, iterationTrace, iterationReceive]

theorem waitOf_zero_of_le (timeout elapsed : Nat) (h : timeout ≤ elapsed) :
    waitOf timeout elapsed = 0 := by
  unfold waitOf
  rw [if_neg (by omega)]

/-- With a clock that does not run backwards, the measured `elapsed` never
exceeds the milliseconds that really passed. -/
theorem elapsedOf_le_real (startTime endTime : Int) (timeout : Nat)
    (hmono : startTime ≤ endTime)
    (h : timeout ≤ elapsedOf startTime endTime) :
    (timeout : Int) * 1000000 ≤ endTime - startTime := by
  unfold elapsedOf at h
  have hd : 0 ≤ endTime - startTime := by omega
  rw [Int.tdiv_eq_ediv hd (by decide)] at h
  omega

/-- The loop of `receive` returns `false` only at the end of an iteration
made of the updates, a clock reading with `elapsed >= timeout`, and one poll
with timeout 0 that returned 0; and no `process` call was made before. -/
theorem receiveLoop_false {W : Type} (env : Env W) (shared : List Nat)
    (fuel timeout : Nat) (startTime : Int) (loops : Nat) :
    ∀ (w : W),
      (receiveLoop env shared fuel timeout startTime loops w).outcome
        = .returned false →
      (∀ e ∈ (receiveLoop env shared fuel timeout startTime loops w).trace,
        e.isProcess = false) ∧
      ∃ (earlier : List Event) (endTime : Int) (sockets : List Socket),
        (receiveLoop env shared fuel timeout startTime loops w).trace
          = earlier ++ (shared.map Event.update ++
              [Event.now endTime, Event.poll sockets 0 0]) ∧
        timeout ≤ elapsedOf startTime endTime := by
  induction loops with
  | zero =>
    intro w h
    simp [receiveLoop] at h
  | succ loops ih =>
    intro w h
    by_cases hr : (iterationReceive env shared fuel timeout startTime w).outcome
        = .returned false
    · have htr := (receiveRounds_false env shared fuel false _ _ hr).2
      have hit : iterationTrace env shared fuel timeout startTime w
          = shared.map Event.update ++
            [Event.now (env.now (updateAll env shared w)).1,
             Event.poll (flatSockets env shared
                (env.now (updateAll env shared w)).2)
               (waitOf timeout
                 (elapsedOf startTime (env.now (updateAll env shared w)).1))
               0] := by
        unfold iterationTrace iterationReceive _receive
        rw [htr]
      have hnp : ∀ e ∈ iterationTrace env shared fuel timeout startTime w,
          e.isProcess = false := by
        rw [hit]
        intro e he
        simp only [List.mem_append, List.mem_map, List.mem_cons,
          List.mem_singleton, List.not_mem_nil, or_false] at he
        rcases he with ⟨r, _, rfl⟩ | rfl | rfl <;> rfl
      by_cases he : timeout ≤ elapsedOf startTime
          (env.now (updateAll env shared w)).1
      · rw [receiveLoop_done env shared fuel timeout startTime loops w hr he]
        refine ⟨hnp, [], (env.now (updateAll env shared w)).1,
          flatSockets env shared (env.now (updateAll env shared w)).2, ?_, he⟩
        simp only [hit, waitOf_zero_of_le _ _ he, List.nil_append]
      · rw [receiveLoop_again env shared fuel timeout startTime loops w hr he]
          at h ⊢
        obtain ⟨hnp2, earlier, endTime, sockets, heq, hle⟩ := ih _ h
        refine ⟨?_, iterationTrace env shared fuel timeout startTime w ++ earlier,
          endTime, sockets, ?_, hle⟩
        · intro e he
          rcases List.mem_append.mp he with he | he
          · exact hnp e he
          · exact hnp2 e he
        · simp only [heq, List.append_assoc]
    · rw [receiveLoop_leave env shared fuel timeout startTime loops w hr] at h
      exact absurd h hr

/-- With a consistent transport, the loop of `receive` returns `true` only
after a `process` call. -/
theorem receiveLoop_true {W : Type} (env : Env W) (shared : List Nat)
    (hpoll : ConsistentPoll env) (fuel timeout : Nat) (startTime : Int)
    (loops : Nat) :
    ∀ (w : W),
      (receiveLoop env shared fuel timeout startTime loops w).outcome
        = .returned true →
      ∃ r s,
        Event.process r s 0
          ∈ (receiveLoop env shared fuel timeout startTime loops w).trace := by
  induction loops with
  | zero =>
    intro w h
    simp [receiveLoop] at h
  | succ loops ih =>
    intro w h
    by_cases hr : (iterationReceive env shared fuel timeout startTime w).outcome
        = .returned false
    · by_cases he : timeout ≤ elapsedOf startTime
          (env.now (updateAll env shared w)).1
      · rw [receiveLoop_done env shared fuel timeout startTime loops w hr he] at h
        cases h
      · rw [receiveLoop_again env shared fuel timeout startTime loops w hr he]
          at h ⊢
        obtain ⟨r, s, hmem⟩ := ih _ h
        exact ⟨r, s, List.mem_append_right _ hmem⟩
    · rw [receiveLoop_leave env shared fuel timeout startTime loops w hr] at h ⊢
      rcases receiveRounds_true env shared hpoll fuel false _ _ h with h' | ⟨r, s, hmem⟩
      · cases h'
      · refine ⟨r, s, ?_⟩
        unfold iterationTrace
        exact List.mem_append_right _ (List.mem_cons_of_mem _ hmem)

theorem blockingReceive_again {W : Type} (env : Env W) (shared : List Nat)
    (fuel loops : Nat) (w : W)
    (hr : (_receive env shared fuel 1000 (updateAll env shared w)).outcome
      = .returned false) :
    _blockingReceive env shared fuel (loops + 1) w
      = ⟨(_blockingReceive env shared fuel loops
            (_receive env shared fuel 1000 (updateAll env shared w)).world).outcome,
          (_blockingReceive env shared fuel loops
            (_receive env shared fuel 1000 (updateAll env shared w)).world).world,
          shared.map Event.update ++
            (_receive env shared fuel 1000 (updateAll env shared w)).trace ++
            (_blockingReceive env shared fuel loops
              (_receive env shared fuel 1000 (updateAll env shared w)).world).trace⟩ := by
  simp only [_blockingReceive, hr]

theorem blockingReceive_leave {W : Type} (env : Env W) (shared : List Nat)
    (fuel loops : Nat) (w : W)
    (hr : (_receive env shared fuel 1000 (updateAll env shared w)).outcome
      ≠ .returned false) :
    _blockingReceive env shared fuel (loops + 1) w
      = ⟨(_receive env shared fuel 1000 (updateAll env shared w)).outcome,
          (_receive env shared fuel 1000 (updateAll env shared w)).world,
          shared.map Event.update ++
            (_receive env shared fuel 1000 (updateAll env shared w)).trace⟩ := by
  simp only [_blockingReceive]

/-- The indefinite loop `_blockingReceive` never returns `false`. -/
theorem blockingReceive_not_false {W : Type} (env : Env W) (shared : List Nat)
    (fuel loops : Nat) :
    ∀ (w : W),
      (_blockingReceive env shared fuel loops w).outcome ≠ .returned false := by
  induction loops with
  | zero =>
    intro w h
    simp [_blockingReceive] at h
  | succ loops ih =>
    intro w
    by_cases hr : (_receive env shared fuel 1000 (updateAll env shared w)).outcome
        = .returned false
    · rw [blockingReceive_again env shared fuel loops w hr]
      exact ih _
    · rw [blockingReceive_leave env shared fuel loops w hr]
      exact hr

theorem blockingReceive_true {W : Type} (env : Env W) (shared : List Nat)
    (hpoll : ConsistentPoll env) (fuel loops : Nat) :
    ∀ (w : W),
      (_blockingReceive env shared fuel loops w).outcome = .returned true →
      ∃ r s,
        Event.process r s 0 ∈ (_blockingReceive env shared fuel loops w).trace := by
  induction loops with
  | zero =>
    intro w h
    simp [_blockingReceive] at h
  | succ loops ih =>
    intro w h
    by_cases hr : (_receive env shared fuel 1000 (updateAll env shared w)).outcome
        = .returned false
    · rw [blockingReceive_again env shared fuel loops w hr] at h ⊢
      obtain ⟨r, s, hmem⟩ := ih _ h
      exact ⟨r, s, List.mem_append_right _ hmem⟩
    · rw [blockingReceive_leave env shared fuel loops w hr] at h ⊢
      rcases receiveRounds_true env shared hpoll fuel false _ _ h with h' | ⟨r, s, hmem⟩
      · cases h'
      · exact ⟨r, s, List.mem_append_right _ hmem⟩

/-- Away from such poll results: when the transport never reports readiness
without a readable socket, a `receive` that returns, returns `true` exactly
when a `process` call ran during it. -/
theorem receive_true_iff_processed_of_consistent_poll {W : Type} (env : Env W)
    (indefinite : Nat) (shared : List Nat) (loops fuel timeout : Nat) (w : W)
    (hpoll : ConsistentPoll env) (b : Bool)
    (h : (receive env indefinite shared loops fuel timeout w).outcome
      = .returned b) :
    b = true ↔
      ∃ e ∈ (receive env indefinite shared loops fuel timeout w).trace,
        e.isProcess = true := by
  unfold receive at h ⊢
  by_cases ht : timeout = indefinite
  · simp only [ht, if_true] at h ⊢
    cases b with
    | false => exact absurd h (blockingReceive_not_false env shared fuel loops w)
    | true =>
      obtain ⟨r, s, hmem⟩ := blockingReceive_true env shared hpoll fuel loops w h
      exact ⟨fun _ => ⟨_, hmem, rfl⟩, fun _ => rfl⟩
  · simp only [ht, if_false] at h ⊢
    cases b with
    | false =>
      have hnp := (receiveLoop_false env shared fuel timeout _ loops _ h).1
      constructor
      · intro hb
        cases hb
      · rintro ⟨e, he, hp⟩
        rcases List.mem_cons.mp he with rfl | he
        · cases hp
        · rw [hnp e he] at hp
          cases hp
    | true =>
      obtain ⟨r, s, hmem⟩ := receiveLoop_true env shared hpoll fuel timeout _ loops _ h
      exact ⟨fun _ => ⟨_, List.mem_cons_of_mem _ hmem, rfl⟩, fun _ => rfl⟩

/-- C3, at the input where the code departs from it: one receiver polls a
raw descriptor for `ZMQ_POLLIN`, and the first `zmq_poll` returns 1 with
`ZMQ_POLLERR` alone in its `revents`.  `receive( 100 )` returns `true` after
that one poll, and no `process` call ran: the `default` case leaves
`haveData` at `false`, the loop ends, and `return true` is reached, where the
source comments "if we didn't return earlier, we had at least one socket with
data". -/
theorem receive_true_without_process :
    (receive (scriptedEnv rawDescriptor) 4294967295 [7] 3 3 100
        ⟨[(1, [ZMQ_POLLERR])], 0⟩).outcome = .returned true ∧
    (receive (scriptedEnv rawDescriptor) 4294967295 [7] 3 3 100
        ⟨[(1, [ZMQ_POLLERR])], 0⟩).trace
      = [Event.now 0, Event.update 7, Event.now 0,
         Event.poll [⟨0, 5, 1, 0⟩] 10 1] ∧
    (∀ e ∈ (receive (scriptedEnv rawDescriptor) 4294967295 [7] 3 3 100
        ⟨[(1, [ZMQ_POLLERR])], 0⟩).trace, e.isProcess = false) ∧
    (pollRound (scriptedEnv rawDescriptor) [7] 10
        ⟨[(1, [ZMQ_POLLERR])], 0⟩).ending = .walked false := by
  decide

theorem receiveRounds_poll_bound {W : Type} (env : Env W) (shared : List Nat)
    (fuel : Nat) (hd : Bool) (t : Nat) (w : W) (sockets : List Socket)
    (t1 : Nat) (ret : Int)
    (h : Event.poll sockets t1 ret ∈ (receiveRounds env shared fuel hd t w).trace) :
    t1 ≤ t := by
  rcases receiveRounds_shape env shared fuel hd t w with h0 | ⟨rest, heq, hrest⟩
  · rw [h0] at h
    cases h
  · rw [heq] at h
    rcases List.mem_cons.mp h with h | h
    · injection h with _ h2 _
      omega
    · rcases hrest _ h with ⟨r, s, he⟩ | ⟨sockets1, ret1, he⟩
      · cases he
      · injection he with _ h2 _
        omega

theorem waitOf_le_block (timeout elapsed : Nat) :
    waitOf timeout elapsed ≤ blockOf timeout := by
  unfold waitOf
  split <;> omega

theorem iterationTrace_poll_bound {W : Type} (env : Env W) (shared : List Nat)
    (fuel timeout : Nat) (startTime : Int) (w : W) (sockets : List Socket)
    (t1 : Nat) (ret : Int)
    (h : Event.poll sockets t1 ret
      ∈ iterationTrace env shared fuel timeout startTime w) :
    t1 ≤ blockOf timeout := by
  unfold iterationTrace at h
  rcases List.mem_append.mp h with h | h
  · simp only [List.mem_map] at h
    obtain ⟨r, _, hr⟩ := h
    cases hr
  · rcases List.mem_cons.mp h with h | h
    · cases h
    · exact Nat.le_trans
        (receiveRounds_poll_bound env shared fuel false _ _ sockets t1 ret h)
        (waitOf_le_block _ _)

theorem receiveLoop_trace_cases {W : Type} (env : Env W) (shared : List Nat)
    (fuel timeout : Nat) (startTime : Int) (loops : Nat) (w : W) :
    (receiveLoop env shared fuel timeout startTime (loops + 1) w).trace
        = iterationTrace env shared fuel timeout startTime w ∨
    (receiveLoop env shared fuel timeout startTime (loops + 1) w).trace
        = iterationTrace env shared fuel timeout startTime w ++
          (receiveLoop env shared fuel timeout startTime loops
            (iterationReceive env shared fuel timeout startTime w).world).trace := by
  by_cases hr : (iterationReceive env shared fuel timeout startTime w).outcome
      = .returned false
  · by_cases he : timeout ≤ elapsedOf startTime
        (env.now (updateAll env shared w)).1
    · rw [receiveLoop_done env shared fuel timeout startTime loops w hr he]
      exact Or.inl rfl
    · rw [receiveLoop_again env shared fuel timeout startTime loops w hr he]
      exact Or.inr rfl
  · rw [receiveLoop_leave env shared fuel timeout startTime loops w hr]
    exact Or.inl rfl

theorem receiveLoop_poll_bound {W : Type} (env : Env W) (shared : List Nat)
    (fuel timeout : Nat) (startTime : Int) (loops : Nat) :
    ∀ (w : W) (sockets : List Socket) (t1 : Nat) (ret : Int),
      Event.poll sockets t1 ret
        ∈ (receiveLoop env shared fuel timeout startTime loops w).trace →
      t1 ≤ blockOf timeout := by
  induction loops with
  | zero =>
    intro w sockets t1 ret h
    simp [receiveLoop] at h
  | succ loops ih =>
    intro w sockets t1 ret h
    rcases receiveLoop_trace_cases env shared fuel timeout startTime loops w with hc | hc
    · rw [hc] at h
      exact iterationTrace_poll_bound env shared fuel timeout startTime w _ _ _ h
    · rw [hc] at h
      rcases List.mem_append.mp h with h | h
      · exact iterationTrace_poll_bound env shared fuel timeout startTime w _ _ _ h
      · exact ih _ _ _ _ h

/-! ## Timeouts -/

theorem receiveRounds_no_traffic {W : Type} (env : Env W) (shared : List Nat)
    (fuel : Nat) (hd : Bool) (t : Nat) (w : W)
    (h0 : (env.zmq_poll (flatSockets env shared w) t w).1 = 0) :
    receiveRounds env shared (fuel + 1) hd t w
      = ⟨.returned hd, (env.zmq_poll (flatSockets env shared w) t w).2.2,
          [Event.poll (flatSockets env shared w) t 0]⟩ := by
  have h := pollRound_timedOut env shared t w h0
  rw [receiveRounds_timedOut env shared fuel hd t w (by rw [h]), h]

/-- With timeout 0 the loop of `receive` makes one iteration. -/
theorem receiveLoop_zero {W : Type} (env : Env W) (shared : List Nat)
    (fuel : Nat) (startTime : Int) (loops : Nat) (w : W) :
    receiveLoop env shared fuel 0 startTime (loops + 1) w
      = ⟨(_receive env shared fuel 0 (env.now (updateAll env shared w)).2).outcome,
          (_receive env shared fuel 0 (env.now (updateAll env shared w)).2).world,
          shared.map Event.update ++
            Event.now (env.now (updateAll env shared w)).1 ::
              (_receive env shared fuel 0
                (env.now (updateAll env shared w)).2).trace⟩ := by
  have hw : ∀ e, waitOf 0 e = 0 := fun e => waitOf_zero_of_le 0 e (Nat.zero_le _)
  by_cases hr : (iterationReceive env shared fuel 0 startTime w).outcome
      = .returned false
  · rw [receiveLoop_done env shared fuel 0 startTime loops w hr (Nat.zero_le _)]
    unfold iterationTrace
    unfold iterationReceive at hr ⊢
    rw [hw] at hr ⊢
    rw [hr]
  · rw [receiveLoop_leave env shared fuel 0 startTime loops w hr]
    unfold iterationTrace iterationReceive
    rw [hw]

/-- C5: for a finite timeout `T`, `receive( T )` returns `false` only at the
end of an iteration made of the updates, a clock reading whose measured
`elapsed` is at least `T`, and one `zmq_poll` with timeout 0 that returned 0,
no `process` call having run; when the clock did not run backwards, at least
`T` ms really passed since the start.  `receive( 0 )` makes one iteration:
one round of updates, one clock reading and the calls of `_receive( 0 )`,
which with no traffic are one `zmq_poll` with timeout 0, after which it
returns `false`. -/
theorem receive_false_only_after_budget {W : Type} (env : Env W)
    (indefinite : Nat) (shared : List Nat) (loops fuel timeout : Nat) (w : W)
    (hfin : timeout ≠ indefinite) :
    ((receive env indefinite shared loops fuel timeout w).outcome
        = .returned false →
      (∀ e ∈ (receive env indefinite shared loops fuel timeout w).trace,
        e.isProcess = false) ∧
      ∃ (earlier : List Event) (endTime : Int) (sockets : List Socket),
        (receive env indefinite shared loops fuel timeout w).trace
          = Event.now (env.now w).1 :: earlier ++
              (shared.map Event.update ++
                [Event.now endTime, Event.poll sockets 0 0]) ∧
        timeout ≤ elapsedOf (env.now w).1 endTime ∧
        ((env.now w).1 ≤ endTime →
          (timeout : Int) * 1000000 ≤ endTime - (env.now w).1)) ∧
    (timeout = 0 →
      (receive env indefinite shared (loops + 1) (fuel + 1) timeout w).trace
        = Event.now (env.now w).1 :: (shared.map Event.update ++
            Event.now (env.now (updateAll env shared (env.now w).2)).1 ::
              (_receive env shared (fuel + 1) 0
                (env.now (updateAll env shared (env.now w).2)).2).trace) ∧
      (∀ (sockets : List Socket) (t : Nat) (ret : Int),
        Event.poll sockets t ret
          ∈ (receive env indefinite shared (loops + 1) (fuel + 1) timeout
              w).trace →
        t = 0) ∧
      ((env.zmq_poll
          (flatSockets env shared
            (env.now (updateAll env shared (env.now w).2)).2) 0
          (env.now (updateAll env shared (env.now w).2)).2).1 = 0 →
        (receive env indefinite shared (loops + 1) (fuel + 1) timeout w).outcome
          = .returned false ∧
        (receive env indefinite shared (loops + 1) (fuel + 1) timeout w).trace
          = Event.now (env.now w).1 :: (shared.map Event.update ++
              [Event.now (env.now (updateAll env shared (env.now w).2)).1,
               Event.poll
                 (flatSockets env shared
                   (env.now (updateAll env shared (env.now w).2)).2) 0 0]))) := by
  constructor
  · intro h
    unfold receive at h ⊢
    simp only [hfin, if_false] at h ⊢
    obtain ⟨hnp, earlier, endTime, sockets, heq, hle⟩ :=
      receiveLoop_false env shared fuel timeout _ loops _ h
    refine ⟨?_, earlier, endTime, sockets, ?_, hle, ?_⟩
    · intro e he
      rcases List.mem_cons.mp he with rfl | he
      · rfl
      · exact hnp e he
    · rw [heq]
      rfl
    · intro hmono
      exact elapsedOf_le_real _ _ _ hmono hle
  · intro h0
    subst h0
    have hpolls : ∀ (sockets : List Socket) (t : Nat) (ret : Int),
        Event.poll sockets t ret
          ∈ (receive env indefinite shared (loops + 1) (fuel + 1) 0 w).trace →
        t = 0 := by
      intro sockets t ret hmem
      unfold receive at hmem
      simp only [hfin, if_false] at hmem
      rcases List.mem_cons.mp hmem with hmem | hmem
      · cases hmem
      · have := receiveLoop_poll_bound env shared (fuel + 1) 0 _ (loops + 1)
          _ _ _ _ hmem
        simpa [blockOf] using this
    refine ⟨?_, hpolls, ?_⟩
    · unfold receive
      simp only [hfin, if_false, receiveLoop_zero]
    unfold receive
    simp only [hfin, if_false, receiveLoop_zero]
    intro hpoll
    unfold _receive
    rw [receiveRounds_no_traffic env shared fuel false 0 _ hpoll]
    exact ⟨rfl, rfl⟩

/-- C5, at a concrete input: `receive( 100 )` on one receiver with a silent
socket, each poll letting its timeout pass. -/
theorem receive_false_only_after_budget_witness :
    (100 : Nat) ≠ 4294967295 ∧
    (receive (scriptedEnv rawDescriptor) 4294967295 [7] 12 1 100
        ⟨[], 0⟩).outcome = .returned false ∧
    ∃ (earlier : List Event) (endTime : Int) (sockets : List Socket),
      (receive (scriptedEnv rawDescriptor) 4294967295 [7] 12 1 100
          ⟨[], 0⟩).trace
        = Event.now 0 :: earlier ++
            ([7].map Event.update ++
              [Event.now endTime, Event.poll sockets 0 0]) ∧
      100 ≤ elapsedOf 0 endTime ∧
      ((0 : Int) ≤ endTime → ((100 : Nat) : Int) * 1000000 ≤ endTime - 0) :=
  ⟨by decide, by decide,
    ((receive_false_only_after_budget (scriptedEnv rawDescriptor) 4294967295
      [7] 12 1 100 ⟨[], 0⟩ (by decide)).1 (by decide)).2⟩

/-- C6, as stated, fails: with timeout 100 and 50 ms elapsed the wait is 10
ms, more than 10% of the 50 ms that remain; and in a run of `receive( 100 )`
the second poll, made 10 ms after the start, waits 10 ms of the 90 that
remain. -/
theorem wait_exceeds_tenth_of_remaining :
    waitOf 100 50 = 10 ∧ ¬ (10 * waitOf 100 50 ≤ 100 - 50) ∧
    (receive (scriptedEnv rawDescriptor) 4294967295 [7] 2 1 100
        ⟨[], 0⟩).trace
      = [Event.now 0,
         Event.update 7, Event.now 0, Event.poll [⟨0, 5, 1, 0⟩] 10 0,
         Event.update 7, Event.now 10000000, Event.poll [⟨0, 5, 1, 0⟩] 10 0] ∧
    elapsedOf 0 10000000 = 10 ∧ ¬ (10 * 10 ≤ 100 - elapsedOf 0 10000000) := by
  decide

/-- C6, amended: the wait handed to `_receive` is at most 1000 ms, at most
the remaining budget `timeout - elapsed`, and at most 10% of the whole
timeout (the block `min( 1000, timeout / 10 )`, which no 32-bit operation
wraps); and every poll of a `receive` with a finite timeout waits at most
that block. -/
theorem wait_within_block_and_remaining (timeout elapsed : Nat) :
    waitOf timeout elapsed ≤ 1000 ∧
    waitOf timeout elapsed ≤ timeout - elapsed ∧
    10 * waitOf timeout elapsed ≤ timeout ∧
    waitOf timeout elapsed ≤ blockOf timeout ∧
    blockOf timeout = min 1000 (timeout / 10) ∧
    waitOf timeout elapsed
      = (if elapsed < timeout then
          min (timeout - elapsed) (min 1000 (timeout / 10)) else 0) ∧
    ∀ (W : Type) (env : Env W) (indefinite : Nat) (shared : List Nat)
      (loops fuel : Nat) (w : W) (sockets : List Socket) (t : Nat) (ret : Int),
      timeout ≠ indefinite →
      Event.poll sockets t ret
        ∈ (receive env indefinite shared loops fuel timeout w).trace →
      t ≤ min 1000 (timeout / 10) := by
  refine ⟨?_, ?_, ?_, waitOf_le_block _ _, rfl, rfl, ?_⟩
  · unfold waitOf blockOf
    split <;> omega
  · unfold waitOf blockOf
    split <;> omega
  · unfold waitOf blockOf
    split <;> omega
  · intro W env indefinite shared loops fuel w sockets t ret hfin h
    unfold receive at h
    simp only [hfin, if_false] at h
    rcases List.mem_cons.mp h with h | h
    · cases h
    · exact receiveLoop_poll_bound env shared fuel timeout _ loops _ _ _ _ h

/-! ## Updates before polls -/

theorem covered_append (shared : List Nat) (a b : List Event)
    (ha : Covered shared a) (hb : Covered shared b) :
    Covered shared (a ++ b) := by
  intro pre e post heq hpoll r hr
  rcases List.append_eq_append_iff.mp heq with ⟨a1, h1, h2⟩ | ⟨c, h1, h2⟩
  · -- `pre = a ++ a1`: the poll lies in `b`
    rw [h1]
    exact List.mem_append_right _ (hb a1 e post h2 hpoll r hr)
  · -- `a = pre ++ c`
    cases c with
    | nil =>
      simp only [List.append_nil] at h1
      simp only [List.nil_append] at h2
      have := hb [] e post h2.symm hpoll r hr
      cases this
    | cons c cs =>
      simp only [List.cons_append, List.cons.injEq] at h2
      obtain ⟨rfl, _⟩ := h2
      exact ha pre e cs h1 hpoll r hr

theorem covered_of_no_poll (shared : List Nat) (l : List Event)
    (h : ∀ e ∈ l, e.isPoll = false) : Covered shared l := by
  intro pre e post heq hpoll
  have : e ∈ l := by
    rw [heq]
    simp
  rw [h e this] at hpoll
  cases hpoll

theorem covered_block (shared : List Nat) (body : List Event) :
    Covered shared (shared.map Event.update ++ body) := by
  intro pre e post heq hpoll r hr
  have hup : Event.update r ∈ shared.map Event.update :=
    List.mem_map.mpr ⟨r, hr, rfl⟩
  rcases List.append_eq_append_iff.mp heq with ⟨a1, h1, _⟩ | ⟨c, h1, h2⟩
  · rw [h1]
    exact List.mem_append_left _ hup
  · cases c with
    | nil =>
      simp only [List.append_nil] at h1
      rw [← h1]
      exact hup
    | cons c cs =>
      simp only [List.cons_append, List.cons.injEq] at h2
      obtain ⟨rfl, _⟩ := h2
      have hmem : e ∈ shared.map Event.update := by
        rw [h1]
        simp
      obtain ⟨x, _, hx⟩ := List.mem_map.mp hmem
      rw [← hx] at hpoll
      cases hpoll

theorem covered_of_iterations (shared : List Nat) (trace : List Event)
    (h : Iterations shared trace) : Covered shared trace := by
  obtain ⟨bodies, heq, hb⟩ := h
  subst heq
  induction bodies with
  | nil => exact covered_of_no_poll shared [] (by simp)
  | cons b bodies ih =>
    simp only [List.map_cons, List.flatten_cons]
    exact covered_append shared _ _
      (covered_block shared b)
      (ih (fun b1 hb1 => hb b1 (List.mem_cons_of_mem _ hb1)))

theorem iterations_cons (shared : List Nat) (body rest : List Event)
    (hbody : ∀ e ∈ body, e.isUpdate = false) (hrest : Iterations shared rest) :
    Iterations shared (shared.map Event.update ++ body ++ rest) := by
  obtain ⟨bodies, heq, hb⟩ := hrest
  refine ⟨body :: bodies, by simp [heq], ?_⟩
  intro b1 hb1
  rcases List.mem_cons.mp hb1 with rfl | hb1
  · exact hbody
  · exact hb b1 hb1

theorem receiveRounds_no_update {W : Type} (env : Env W) (shared : List Nat)
    (fuel : Nat) (hd : Bool) (t : Nat) (w : W) :
    ∀ e ∈ (receiveRounds env shared fuel hd t w).trace, e.isUpdate = false := by
  intro e he
  rcases receiveRounds_shape env shared fuel hd t w with h0 | ⟨rest, heq, hrest⟩
  · rw [h0] at he
    cases he
  · rw [heq] at he
    rcases List.mem_cons.mp he with rfl | he
    · rfl
    · rcases hrest e he with ⟨r, s, rfl⟩ | ⟨sockets, ret, rfl⟩ <;> rfl

theorem receiveLoop_iterations {W : Type} (env : Env W) (shared : List Nat)
    (fuel timeout : Nat) (startTime : Int) (loops : Nat) :
    ∀ (w : W),
      Iterations shared
        (receiveLoop env shared fuel timeout startTime loops w).trace := by
  induction loops with
  | zero =>
    intro w
    exact ⟨[], rfl, by simp⟩
  | succ loops ih =>
    intro w
    have hbody : ∀ e ∈ Event.now (env.now (updateAll env shared w)).1 ::
        (iterationReceive env shared fuel timeout startTime w).trace,
        e.isUpdate = false := by
      intro e he
      rcases List.mem_cons.mp he with rfl | he
      · rfl
      · exact receiveRounds_no_update env shared fuel false _ _ e he
    rcases receiveLoop_trace_cases env shared fuel timeout startTime loops w with hc | hc
    · rw [hc]
      have := iterations_cons shared _ [] hbody ⟨[], rfl, by simp⟩
      simpa [iterationTrace] using this
    · rw [hc]
      have := iterations_cons shared _ _ hbody (ih
        (iterationReceive env shared fuel timeout startTime w).world)
      simpa [iterationTrace] using this

theorem blockingReceive_iterations {W : Type} (env : Env W)
    (shared : List Nat) (fuel loops : Nat) :
    ∀ (w : W),
      Iterations shared (_blockingReceive env shared fuel loops w).trace := by
  induction loops with
  | zero =>
    intro w
    exact ⟨[], rfl, by simp⟩
  | succ loops ih =>
    intro w
    have hbody := receiveRounds_no_update env shared fuel false 1000
      (updateAll env shared w)
    by_cases hr : (_receive env shared fuel 1000 (updateAll env shared w)).outcome
        = .returned false
    · rw [blockingReceive_again env shared fuel loops w hr]
      exact iterations_cons shared _ _ hbody (ih _)
    · rw [blockingReceive_leave env shared fuel loops w hr]
      have := iterations_cons shared _ [] hbody ⟨[], rfl, by simp⟩
      simpa using this

theorem iterationTrace_eq_claimed {W : Type} (env : Env W)
    (shared : List Nat) (fuel timeout : Nat) (startTime : Int) (w : W) :
    iterationTrace env shared fuel timeout startTime w
      = claimedIteration env shared fuel true
          (waitOf timeout
            (elapsedOf startTime (env.now (updateAll env shared w)).1)) w := by
  simp [iterationTrace, iterationReceive, claimedIteration, claimedPollWorld,
    updateAll]

theorem iterationReceive_world {W : Type} (env : Env W)
    (shared : List Nat) (fuel timeout : Nat) (startTime : Int) (w : W) :
    (iterationReceive env shared fuel timeout startTime w).world
      = (_receive env shared fuel
          (waitOf timeout
            (elapsedOf startTime (env.now (updateAll env shared w)).1))
          (claimedPollWorld env shared true w)).world := by
  simp [iterationReceive, claimedPollWorld, updateAll]

/-- The loop of `receive` makes whole iterations, and with at least one
turn allowed it makes the first. -/
theorem receiveLoop_outer {W : Type} (env : Env W) (shared : List Nat)
    (fuel timeout : Nat) (startTime : Int) (loops : Nat) :
    ∀ (w : W),
      OuterLoop env shared fuel true w
        (receiveLoop env shared fuel timeout startTime loops w).trace ∧
      (0 < loops →
        ∃ (wait : Nat) (rest : List Event),
          (receiveLoop env shared fuel timeout startTime loops w).trace
            = claimedIteration env shared fuel true wait w ++ rest ∧
          OuterLoop env shared fuel true
            (_receive env shared fuel wait
              (claimedPollWorld env shared true w)).world rest) := by
  induction loops with
  | zero =>
    intro w
    exact ⟨OuterLoop.stop w, fun h => absurd h (Nat.lt_irrefl 0)⟩
  | succ loops ih =>
    intro w
    have hfirst : ∃ (wait : Nat) (rest : List Event),
        (receiveLoop env shared fuel timeout startTime (loops + 1) w).trace
          = claimedIteration env shared fuel true wait w ++ rest ∧
        OuterLoop env shared fuel true
          (_receive env shared fuel wait
            (claimedPollWorld env shared true w)).world rest := by
      rcases receiveLoop_trace_cases env shared fuel timeout startTime loops w
        with hc | hc
      · exact ⟨_, [], by rw [hc, iterationTrace_eq_claimed, List.append_nil],
          OuterLoop.stop _⟩
      · refine ⟨_, _, by rw [hc, iterationTrace_eq_claimed], ?_⟩
        rw [← iterationReceive_world]
        exact (ih _).1
    refine ⟨?_, fun _ => hfirst⟩
    obtain ⟨wait, rest, heq, hrest⟩ := hfirst
    rw [heq]
    exact OuterLoop.iteration w wait rest hrest

theorem blockingReceive_trace_cases {W : Type} (env : Env W)
    (shared : List Nat) (fuel loops : Nat) (w : W) :
    (_blockingReceive env shared fuel (loops + 1) w).trace
        = claimedIteration env shared fuel false 1000 w ∨
    (_blockingReceive env shared fuel (loops + 1) w).trace
        = claimedIteration env shared fuel false 1000 w ++
          (_blockingReceive env shared fuel loops
            (_receive env shared fuel 1000
              (claimedPollWorld env shared false w)).world).trace := by
  by_cases hr : (_receive env shared fuel 1000 (updateAll env shared w)).outcome
      = .returned false
  · rw [blockingReceive_again env shared fuel loops w hr]
    right
    simp [claimedIteration, claimedPollWorld, updateAll]
  · rw [blockingReceive_leave env shared fuel loops w hr]
    left
    simp [claimedIteration, claimedPollWorld, updateAll]

/-- The indefinite loop makes whole iterations, and with at least one turn
allowed it makes the first. -/
theorem blockingReceive_outer {W : Type} (env : Env W) (shared : List Nat)
    (fuel loops : Nat) :
    ∀ (w : W),
      OuterLoop env shared fuel false w
        (_blockingReceive env shared fuel loops w).trace ∧
      (0 < loops →
        ∃ (wait : Nat) (rest : List Event),
          (_blockingReceive env shared fuel loops w).trace
            = claimedIteration env shared fuel false wait w ++ rest ∧
          OuterLoop env shared fuel false
            (_receive env shared fuel wait
              (claimedPollWorld env shared false w)).world rest) := by
  induction loops with
  | zero =>
    intro w
    exact ⟨OuterLoop.stop w, fun h => absurd h (Nat.lt_irrefl 0)⟩
  | succ loops ih =>
    intro w
    have hfirst : ∃ (wait : Nat) (rest : List Event),
        (_blockingReceive env shared fuel (loops + 1) w).trace
          = claimedIteration env shared fuel false wait w ++ rest ∧
        OuterLoop env shared fuel false
          (_receive env shared fuel wait
            (claimedPollWorld env shared false w)).world rest := by
      rcases blockingReceive_trace_cases env shared fuel loops w with hc | hc
      · exact ⟨1000, [], by rw [hc, List.append_nil], OuterLoop.stop _⟩
      · exact ⟨1000, _, hc, (ih _).1⟩
    refine ⟨?_, fun _ => hfirst⟩
    obtain ⟨wait, rest, heq, hrest⟩ := hfirst
    rw [heq]
    exact OuterLoop.iteration w wait rest hrest

/-- C7: in every run of `receive`, with a finite timeout or
`TIMEOUT_INDEFINITE`, whether it returns, throws or is still running, the
calls made so far are (after the reading of the start time) whole iterations
of the outer loop.  Each iteration calls `update()` once on each attached
receiver, in registration order, each call working on the world the one
before left; in the finite mode it then reads the clock; and only then does
`_receive` run, in the world the updates (and the clock) left, so that its
first call is the `zmq_poll` of the sockets the updated receivers contribute
and none of its calls is an update.  The next iteration starts in the world
that `_receive` left.  With at least one turn of the loop allowed the first
iteration is made.  Hence every `zmq_poll` of the run comes after an
`update()` of each attached receiver. -/
theorem updates_precede_every_poll {W : Type} (env : Env W)
    (indefinite : Nat) (shared : List Nat) (loops fuel timeout : Nat) (w : W) :
    (∃ (lead : List Event) (bodies : List (List Event)),
      (receive env indefinite shared loops fuel timeout w).trace
        = lead ++
          (bodies.map (fun b => shared.map Event.update ++ b)).flatten ∧
      (lead = [] ∨ lead = [Event.now (env.now w).1]) ∧
      ∀ b ∈ bodies, ∀ e ∈ b, e.isUpdate = false) ∧
    (∀ (pre : List Event) (e : Event) (post : List Event),
      (receive env indefinite shared loops fuel timeout w).trace
        = pre ++ e :: post →
      e.isPoll = true → ∀ r ∈ shared, Event.update r ∈ pre) ∧
    (timeout = indefinite →
      OuterLoop env shared fuel false w
        (receive env indefinite shared loops fuel timeout w).trace ∧
      (0 < loops →
        ∃ (wait : Nat) (rest : List Event),
          (receive env indefinite shared loops fuel timeout w).trace
            = claimedIteration env shared fuel false wait w ++ rest ∧
          OuterLoop env shared fuel false
            (_receive env shared fuel wait
              (claimedPollWorld env shared false w)).world rest)) ∧
    (timeout ≠ indefinite →
      ∃ tail : List Event,
        (receive env indefinite shared loops fuel timeout w).trace
          = Event.now (env.now w).1 :: tail ∧
        OuterLoop env shared fuel true (env.now w).2 tail ∧
        (0 < loops →
          ∃ (wait : Nat) (rest : List Event),
            tail = claimedIteration env shared fuel true wait (env.now w).2
              ++ rest ∧
            OuterLoop env shared fuel true
              (_receive env shared fuel wait
                (claimedPollWorld env shared true (env.now w).2)).world
              rest)) ∧
    ∀ (wait : Nat) (wp : W),
      (∀ e ∈ (_receive env shared fuel wait wp).trace, e.isUpdate = false) ∧
      ((_receive env shared fuel wait wp).trace = [] ∨
        ∃ rest : List Event,
          (_receive env shared fuel wait wp).trace
            = Event.poll (flatSockets env shared wp) wait
                (env.zmq_poll (flatSockets env shared wp) wait wp).1 ::
              rest) := by
  refine ⟨?_, ?_, ?_, ?_, ?_⟩
  · unfold receive
    by_cases ht : timeout = indefinite
    · simp only [ht, if_true]
      obtain ⟨bodies, heq, hb⟩ :=
        blockingReceive_iterations env shared fuel loops w
      exact ⟨[], bodies, by simpa using heq, Or.inl rfl, hb⟩
    · simp only [ht, if_false]
      obtain ⟨bodies, heq, hb⟩ := receiveLoop_iterations env shared fuel
        timeout (env.now w).1 loops (env.now w).2
      exact ⟨[Event.now (env.now w).1], bodies, by simp [heq], Or.inr rfl, hb⟩
  · unfold receive
    by_cases ht : timeout = indefinite
    · simp only [ht, if_true]
      exact covered_of_iterations shared _
        (blockingReceive_iterations env shared fuel loops w)
    · simp only [ht, if_false]
      have hcov := covered_append shared [Event.now (env.now w).1] _
        (covered_of_no_poll shared _ (by simp [Event.isPoll]))
        (covered_of_iterations shared _
          (receiveLoop_iterations env shared fuel timeout (env.now w).1
            loops (env.now w).2))
      simpa using hcov
  · intro ht
    unfold receive
    simp only [ht, if_true]
    exact blockingReceive_outer env shared fuel loops w
  · intro ht
    unfold receive
    simp only [ht, if_false]
    exact ⟨_, rfl, receiveLoop_outer env shared fuel timeout (env.now w).1
      loops (env.now w).2⟩
  · intro wait wp
    refine ⟨receiveRounds_no_update env shared fuel false wait wp, ?_⟩
    rcases receiveRounds_shape env shared fuel false wait wp with h | ⟨rest, h, _⟩
    · exact Or.inl h
    · exact Or.inr ⟨rest, h⟩

/-! ## Edge-triggered drain in the queue model -/

theorem queue_flatSockets (socketsOf : Nat → List Nat) (shared : List Nat)
    (w w1 : QueueWorld) :
    flatSockets (queueEnv socketsOf) shared w
      = flatSockets (queueEnv socketsOf) shared w1 := rfl

theorem queue_updateAll (socketsOf : Nat → List Nat) (shared : List Nat)
    (w : QueueWorld) : updateAll (queueEnv socketsOf) shared w = w := by
  induction shared with
  | nil => rfl
  | cons r shared ih =>
    simp only [updateAll, List.foldl_cons] at ih ⊢
    exact ih

theorem queue_setRevents (socketsOf : Nat → List Nat) (sockets : List Socket)
    (t : Nat) (w : QueueWorld) :
    setRevents sockets ((queueEnv socketsOf).zmq_poll sockets t w).2.1
      = sockets.map (markReady w) := by
  apply List.ext_getElem?
  intro i
  simp only [setRevents, queueEnv, List.getElem?_map, List.getElem?_enum]
  cases h : sockets[i]? with
  | none => rfl
  | some s => simp [markReady, h]

theorem readable_markReady (w : QueueWorld) (s : Socket) :
    readable (markReady w s) = decide (0 < w.pending s.socket) := by
  unfold readable markReady
  by_cases h : 0 < w.pending s.socket
  · simp [h, ZMQ_POLLIN]
  · simp [h]

theorem queue_poll_ret (socketsOf : Nat → List Nat) (sockets : List Socket)
    (t : Nat) (w : QueueWorld) :
    ((queueEnv socketsOf).zmq_poll sockets t w).1
      = Int.ofNat
          (sockets.filter (fun s => decide (0 < w.pending s.socket))).length :=
  rfl

theorem queue_poll_world_ready (socketsOf : Nat → List Nat)
    (sockets : List Socket) (t : Nat) (w : QueueWorld)
    (h : sockets.filter (fun s => decide (0 < w.pending s.socket)) ≠ []) :
    ((queueEnv socketsOf).zmq_poll sockets t w).2.2 = w := by
  show (if (sockets.filter
      (fun s => decide (0 < w.pending s.socket))).isEmpty then _ else w) = w
  rw [if_neg]
  simpa using h

theorem filter_pending_eq_nil (sockets : List Socket) (w : QueueWorld) :
    sockets.filter (fun s => decide (0 < w.pending s.socket)) = [] ↔
      pendingTotal sockets w = 0 := by
  induction sockets with
  | nil => simp [pendingTotal]
  | cons s rest ih =>
    simp only [pendingTotal, List.map_cons, List.sum_cons] at ih ⊢
    by_cases h : 0 < w.pending s.socket
    · simp [h]
      omega
    · have h0 : w.pending s.socket = 0 := by omega
      simp [h0, ih]

theorem sum_pred_add_count (sockets : List Socket) (f : Socket → Nat) :
    (sockets.map (fun s => f s - 1)).sum
        + (sockets.filter (fun s => decide (0 < f s))).length
      = (sockets.map f).sum := by
  induction sockets with
  | nil => rfl
  | cons s rest ih =>
    by_cases h : 0 < f s
    · simp only [List.map_cons, List.sum_cons, List.filter_cons, h,
        decide_True, if_true, List.length_cons]
      omega
    · simp only [List.map_cons, List.sum_cons, List.filter_cons, h,
        decide_False]
      simp only [Bool.false_eq_true, if_false]
      omega

/-- The effect of the `process` calls of one round in the queue model, when
no socket is polled twice: one message leaves each socket that held one. -/
theorem queue_round_effect (socketsOf : Nat → List Nat) (w0 : QueueWorld)
    (sockets : List Socket) :
    ∀ (own : List Nat) (w : QueueWorld),
      own.length = sockets.length →
      (sockets.map Socket.socket).Nodup →
      (∀ s ∈ sockets, w.pending s.socket = w0.pending s.socket) →
      (∀ s ∈ sockets,
        ((expectedCalls own (sockets.map (markReady w0))).foldl
          (fun w p => (queueEnv socketsOf).process p.1 p.2 0 w) w).pending
            s.socket = w0.pending s.socket - 1) ∧
      (∀ id, id ∉ sockets.map Socket.socket →
        ((expectedCalls own (sockets.map (markReady w0))).foldl
          (fun w p => (queueEnv socketsOf).process p.1 p.2 0 w) w).pending id
            = w.pending id) ∧
      (expectedCalls own (sockets.map (markReady w0))).length
        = (sockets.filter (fun s => decide (0 < w0.pending s.socket))).length := by
  induction sockets with
  | nil =>
    intro own w _ _ _
    simp [expectedCalls]
  | cons s rest ih =>
    intro own w hlen hnd hsame
    cases own with
    | nil => simp at hlen
    | cons o own =>
      have hlen1 : own.length = rest.length := by simpa using hlen
      simp only [List.map_cons, List.nodup_cons] at hnd
      obtain ⟨hnotin, hnd1⟩ := hnd
      by_cases hp : 0 < w0.pending s.socket
      · -- the socket is flagged: one `process` call
        have hcalls : expectedCalls (o :: own) ((s :: rest).map (markReady w0))
            = (o, markReady w0 s) :: expectedCalls own (rest.map (markReady w0)) := by
          simp [expectedCalls, readable_markReady, hp]
        rw [hcalls]
        simp only [List.foldl_cons, List.length_cons]
        have hsame1 : ∀ s1 ∈ rest,
            ((queueEnv socketsOf).process o (markReady w0 s) 0 w).pending
              s1.socket = w0.pending s1.socket := by
          intro s1 hs1
          have hne : s1.socket ≠ s.socket := by
            intro heq
            exact hnotin (heq ▸ List.mem_map.mpr ⟨s1, hs1, rfl⟩)
          simp only [queueEnv, markReady, hne, if_false]
          exact hsame s1 (List.mem_cons_of_mem _ hs1)
        obtain ⟨h1, h2, h3⟩ := ih own
          ((queueEnv socketsOf).process o (markReady w0 s) 0 w) hlen1 hnd1 hsame1
        refine ⟨?_, ?_, ?_⟩
        · intro s1 hs1
          rcases List.mem_cons.mp hs1 with rfl | hs1
          · rw [h2 _ hnotin]
            simp only [queueEnv, markReady, if_true]
            rw [hsame s1 (List.mem_cons_self _ _)]
          · exact h1 s1 hs1
        · intro id hid
          simp only [List.map_cons, List.mem_cons, not_or] at hid
          rw [h2 id hid.2]
          simp [queueEnv, markReady, hid.1]
        · simp [h3, hp]
      · -- the socket is not flagged
        have hcalls : expectedCalls (o :: own) ((s :: rest).map (markReady w0))
            = expectedCalls own (rest.map (markReady w0)) := by
          simp [expectedCalls, readable_markReady, hp]
        rw [hcalls]
        obtain ⟨h1, h2, h3⟩ := ih own w hlen1 hnd1
          (fun s1 hs1 => hsame s1 (List.mem_cons_of_mem _ hs1))
        refine ⟨?_, ?_, ?_⟩
        · intro s1 hs1
          rcases List.mem_cons.mp hs1 with rfl | hs1
          · rw [h2 _ hnotin, hsame s1 (List.mem_cons_self _ _)]
            omega
          · exact h1 s1 hs1
        · intro id hid
          simp only [List.map_cons, List.mem_cons, not_or] at hid
          exact h2 id hid.2
        · simp [h3, hp]

/-- A poll round of the queue model that finds messages pending: it makes
at least one `process` call, and as many messages leave the queues as
`process` calls were made. -/
theorem queue_round (socketsOf : Nat → List Nat) (shared : List Nat)
    (t : Nat) (w : QueueWorld)
    (hnd : ((flatSockets (queueEnv socketsOf) shared w).map
      Socket.socket).Nodup)
    (hN : 0 < pendingTotal (flatSockets (queueEnv socketsOf) shared w) w) :
    ∃ (calls : List (Nat × Socket)) (ret : Int),
      (pollRound (queueEnv socketsOf) shared t w).ending = .walked true ∧
      (pollRound (queueEnv socketsOf) shared t w).trace
        = Event.poll (flatSockets (queueEnv socketsOf) shared w) t ret ::
            processEvents calls ∧
      ret ≠ 0 ∧
      0 < calls.length ∧
      pendingTotal (flatSockets (queueEnv socketsOf) shared w)
          (pollRound (queueEnv socketsOf) shared t w).world + calls.length
        = pendingTotal (flatSockets (queueEnv socketsOf) shared w) w := by
  have hfilter : (flatSockets (queueEnv socketsOf) shared w).filter
      (fun s => decide (0 < w.pending s.socket)) ≠ [] := by
    intro h
    rw [filter_pending_eq_nil] at h
    omega
  have hlenpos : 0 < ((flatSockets (queueEnv socketsOf) shared w).filter
      (fun s => decide (0 < w.pending s.socket))).length :=
    List.length_pos.mpr hfilter
  have hret0 : ((queueEnv socketsOf).zmq_poll
      (flatSockets (queueEnv socketsOf) shared w) t w).1 ≠ 0 := by
    rw [queue_poll_ret]
    simp only [Int.ofNat_eq_coe, ne_eq, Int.natCast_eq_zero]
    omega
  have hret1 : ((queueEnv socketsOf).zmq_poll
      (flatSockets (queueEnv socketsOf) shared w) t w).1 ≠ -1 := by
    rw [queue_poll_ret]
    simp only [Int.ofNat_eq_coe]
    omega
  have hworld : ((queueEnv socketsOf).zmq_poll
      (flatSockets (queueEnv socketsOf) shared w) t w).2.2 = w :=
    queue_poll_world_ready socketsOf _ t w hfilter
  obtain ⟨calls, htr, hc⟩ := pollRound_cases (queueEnv socketsOf) shared t w
  rcases hc with ⟨h, _⟩ | ⟨h, _⟩ | ⟨_, _, hs, _⟩ | ⟨_, _, _, hcalls, hend, hw⟩
  · exact absurd h hret1
  · exact absurd h hret0
  · exfalso
    subst hs
    exact hfilter rfl
  · rw [queue_setRevents] at hcalls hend
    rw [hworld] at hw
    obtain ⟨h1, _, h3⟩ := queue_round_effect socketsOf w
      (flatSockets (queueEnv socketsOf) shared w)
      (owners (queueEnv socketsOf) shared w) w
      (owners_length _ _ _) hnd (fun _ _ => rfl)
    rw [← hcalls] at h1 h3
    rw [← hw] at h1
    have hany : ((flatSockets (queueEnv socketsOf) shared w).map
        (markReady w)).any readable = true := by
      obtain ⟨s, hs⟩ := List.exists_mem_of_ne_nil _ hfilter
      rw [List.mem_filter] at hs
      rw [List.any_eq_true]
      exact ⟨markReady w s, List.mem_map.mpr ⟨s, hs.1, rfl⟩,
        by rw [readable_markReady]; exact hs.2⟩
    rw [hany] at hend
    refine ⟨calls, _, hend, htr, hret0, by omega, ?_⟩
    have hsum : pendingTotal (flatSockets (queueEnv socketsOf) shared w)
        (pollRound (queueEnv socketsOf) shared t w).world
        = ((flatSockets (queueEnv socketsOf) shared w).map
            (fun s => w.pending s.socket - 1)).sum := by
      unfold pendingTotal
      congr 1
      exact List.map_congr_left h1
    rw [hsum, h3]
    exact sum_pred_add_count _ _

theorem count_process_poll_cons (sockets : List Socket) (t : Nat) (ret : Int)
    (calls : List (Nat × Socket)) (rest : List Event) :
    ((Event.poll sockets t ret :: processEvents calls ++ rest).filter
        Event.isProcess).length
      = calls.length + (rest.filter Event.isProcess).length := by
  have h : (processEvents calls).filter Event.isProcess = processEvents calls := by
    rw [List.filter_eq_self]
    intro e he
    obtain ⟨r, s, rfl⟩ := processEvents_all calls e he
    rfl
  simp only [List.cons_append, List.filter_cons, Event.isProcess,
    Bool.false_eq_true, if_false, List.filter_append, h, List.length_append]
  simp [processEvents]

/-- The drain phase of `_receive` in the queue model: entered with
`haveData` set and timeout 0, with more fuel than messages pending, it
returns `true` after one `process` call per pending message, and its last
call is a poll with timeout 0 that returned 0. -/
theorem queue_drain (socketsOf : Nat → List Nat) (shared : List Nat)
    (fuel : Nat) :
    ∀ (w : QueueWorld),
      ((flatSockets (queueEnv socketsOf) shared w).map Socket.socket).Nodup →
      pendingTotal (flatSockets (queueEnv socketsOf) shared w) w < fuel →
      (receiveRounds (queueEnv socketsOf) shared fuel true 0 w).outcome
        = .returned true ∧
      ((receiveRounds (queueEnv socketsOf) shared fuel true 0 w).trace.filter
          Event.isProcess).length
        = pendingTotal (flatSockets (queueEnv socketsOf) shared w) w ∧
      (receiveRounds (queueEnv socketsOf) shared fuel true 0 w).trace.getLast?
        = some (Event.poll (flatSockets (queueEnv socketsOf) shared w) 0 0) ∧
      pendingTotal (flatSockets (queueEnv socketsOf) shared w)
        (receiveRounds (queueEnv socketsOf) shared fuel true 0 w).world = 0 := by
  induction fuel with
  | zero =>
    intro w _ h
    omega
  | succ fuel ih =>
    intro w hnd hfuel
    by_cases hN : pendingTotal (flatSockets (queueEnv socketsOf) shared w) w = 0
    · have h0 : ((queueEnv socketsOf).zmq_poll
          (flatSockets (queueEnv socketsOf) shared w) 0 w).1 = 0 := by
        rw [queue_poll_ret, (filter_pending_eq_nil _ _).mpr hN]
        rfl
      rw [receiveRounds_no_traffic _ shared fuel true 0 w h0]
      refine ⟨rfl, by simp [hN, Event.isProcess], rfl, ?_⟩
      simpa [queueEnv, pendingTotal] using hN
    · obtain ⟨calls, ret, hend, htr, _, hpos, hsum⟩ :=
        queue_round socketsOf shared 0 w hnd (by omega)
      rw [receiveRounds_walked_true _ shared fuel true 0 w hend]
      obtain ⟨h1, h2, h3, h4⟩ := ih
        (pollRound (queueEnv socketsOf) shared 0 w).world hnd
        (by
          rw [queue_flatSockets socketsOf shared _ w]
          omega)
      rw [queue_flatSockets socketsOf shared _ w] at h2 h3 h4
      refine ⟨h1, ?_, ?_, h4⟩
      · simp only [htr]
        rw [count_process_poll_cons, h2]
        omega
      · simp only []
        rw [List.getLast?_append, h3]
        rfl

/-- One `_receive` of the queue model that finds `N >= 1` messages pending,
given more fuel than `N`. -/
theorem queue_receive (socketsOf : Nat → List Nat) (shared : List Nat)
    (fuel t : Nat) (w : QueueWorld)
    (hnd : ((flatSockets (queueEnv socketsOf) shared w).map
      Socket.socket).Nodup)
    (hN : 0 < pendingTotal (flatSockets (queueEnv socketsOf) shared w) w)
    (hfuel : pendingTotal (flatSockets (queueEnv socketsOf) shared w) w < fuel) :
    (_receive (queueEnv socketsOf) shared fuel t w).outcome = .returned true ∧
    ((_receive (queueEnv socketsOf) shared fuel t w).trace.filter
        Event.isProcess).length
      = pendingTotal (flatSockets (queueEnv socketsOf) shared w) w ∧
    (_receive (queueEnv socketsOf) shared fuel t w).trace.getLast?
      = some (Event.poll (flatSockets (queueEnv socketsOf) shared w) 0 0) ∧
    pendingTotal (flatSockets (queueEnv socketsOf) shared w)
      (_receive (queueEnv socketsOf) shared fuel t w).world = 0 ∧
    ∃ (ret : Int) (rest : List Event),
      (_receive (queueEnv socketsOf) shared fuel t w).trace
        = Event.poll (flatSockets (queueEnv socketsOf) shared w) t ret :: rest ∧
      ret ≠ 0 ∧
      ∀ e ∈ rest, (∃ r s, e = Event.process r s 0) ∨
        (∃ sockets ret1, e = Event.poll sockets 0 ret1) := by
  cases fuel with
  | zero => omega
  | succ fuel =>
    obtain ⟨calls, ret, hend, htr, hret, hpos, hsum⟩ :=
      queue_round socketsOf shared t w hnd hN
    obtain ⟨h1, h2, h3, h4⟩ := queue_drain socketsOf shared fuel
      (pollRound (queueEnv socketsOf) shared t w).world hnd
      (by
        rw [queue_flatSockets socketsOf shared _ w]
        omega)
    rw [queue_flatSockets socketsOf shared _ w] at h2 h3 h4
    have hshape := receiveRounds_shape (queueEnv socketsOf) shared (fuel + 1)
      false t w
    unfold _receive
    rw [receiveRounds_walked_true _ shared fuel false t w hend] at hshape ⊢
    refine ⟨h1, ?_, ?_, h4, ?_⟩
    · simp only [htr]
      rw [count_process_poll_cons, h2]
      omega
    · simp only []
      rw [List.getLast?_append, h3]
      rfl
    · simp only [] at hshape ⊢
      rcases hshape with h0 | ⟨rest, heq, hrest⟩
      · rw [htr] at h0
        simp at h0
      · rw [htr] at heq ⊢
        simp only [List.cons_append, List.cons.injEq, Event.poll.injEq,
          true_and] at heq
        refine ⟨ret, rest, ?_, hret, hrest⟩
        rw [List.cons_append, heq.2]

/-- C4: in the queue model (each socket polled once, `zmq_poll` flagging
exactly the sockets with a pending message, `process` taking one message
off its socket, nothing arriving), a `receive` that finds `N >= 1` messages
pending returns `true`, given at least one iteration and more rounds than
`N`; it makes exactly `N` `process` calls and leaves no message pending; its
first poll reports readiness, every later call is a `process( socket, 0 )` or
a poll with timeout 0, and its last call is a poll with timeout 0 that found
no socket readable. -/
theorem edge_triggered_drain (socketsOf : Nat → List Nat) (indefinite : Nat)
    (shared : List Nat) (loops fuel timeout : Nat) (w : QueueWorld)
    (hnd : ((flatSockets (queueEnv socketsOf) shared w).map
      Socket.socket).Nodup)
    (hN : 1 ≤ pendingTotal (flatSockets (queueEnv socketsOf) shared w) w)
    (hfuel : pendingTotal (flatSockets (queueEnv socketsOf) shared w) w < fuel) :
    (receive (queueEnv socketsOf) indefinite shared (loops + 1) fuel timeout
        w).outcome = .returned true ∧
    ((receive (queueEnv socketsOf) indefinite shared (loops + 1) fuel timeout
        w).trace.filter Event.isProcess).length
      = pendingTotal (flatSockets (queueEnv socketsOf) shared w) w ∧
    pendingTotal (flatSockets (queueEnv socketsOf) shared w)
      (receive (queueEnv socketsOf) indefinite shared (loops + 1) fuel timeout
        w).world = 0 ∧
    (receive (queueEnv socketsOf) indefinite shared (loops + 1) fuel timeout
        w).trace.getLast?
      = some (Event.poll (flatSockets (queueEnv socketsOf) shared w) 0 0) ∧
    ∃ (lead : List Event) (wait : Nat) (ret : Int) (rest : List Event),
      (receive (queueEnv socketsOf) indefinite shared (loops + 1) fuel timeout
          w).trace
        = lead ++
          Event.poll (flatSockets (queueEnv socketsOf) shared w) wait ret ::
            rest ∧
      (∀ e ∈ lead, e.isPoll = false ∧ e.isProcess = false) ∧
      ret ≠ 0 ∧
      ∀ e ∈ rest, (∃ r s, e = Event.process r s 0) ∨
        (∃ sockets ret1, e = Event.poll sockets 0 ret1) := by
  have hlead : ∀ e ∈ shared.map Event.update,
      e.isPoll = false ∧ e.isProcess = false := by
    intro e he
    obtain ⟨r, _, rfl⟩ := List.mem_map.mp he
    exact ⟨rfl, rfl⟩
  have hcount : ∀ (l : List Event),
      (∀ e ∈ l, e.isPoll = false ∧ e.isProcess = false) →
      l.filter Event.isProcess = [] := by
    intro l hl
    rw [List.filter_eq_nil_iff]
    intro e he
    rw [(hl e he).2]
    simp
  unfold receive
  by_cases ht : timeout = indefinite
  · simp only [ht, if_true]
    obtain ⟨h1, h2, h3, h4, ret, rest, h5, h6, h7⟩ :=
      queue_receive socketsOf shared fuel 1000 w hnd hN hfuel
    have hr : (_receive (queueEnv socketsOf) shared fuel 1000
        (updateAll (queueEnv socketsOf) shared w)).outcome ≠ .returned false := by
      rw [queue_updateAll, h1]
      simp
    rw [blockingReceive_leave _ shared fuel loops w hr, queue_updateAll]
    refine ⟨h1, ?_, h4, ?_, shared.map Event.update, 1000, ret, rest, ?_, hlead,
      h6, h7⟩
    · simp only [List.filter_append, hcount _ hlead, List.nil_append, h2]
    · simp only []
      rw [List.getLast?_append, h3]
      rfl
    · simp only [h5]
  · simp only [ht, if_false]
    have hw2 : ((queueEnv socketsOf).now
        (updateAll (queueEnv socketsOf) shared ((queueEnv socketsOf).now w).2)).2
        = w := by
      rw [queue_updateAll]
      rfl
    obtain ⟨h1, h2, h3, h4, ret, rest, h5, h6, h7⟩ :=
      queue_receive socketsOf shared fuel
        (waitOf timeout (elapsedOf ((queueEnv socketsOf).now w).1
          ((queueEnv socketsOf).now (updateAll (queueEnv socketsOf) shared
            ((queueEnv socketsOf).now w).2)).1)) w hnd hN hfuel
    have hr : (iterationReceive (queueEnv socketsOf) shared fuel timeout
        ((queueEnv socketsOf).now w).1 ((queueEnv socketsOf).now w).2).outcome
        ≠ .returned false := by
      unfold iterationReceive
      rw [hw2, h1]
      simp
    rw [receiveLoop_leave _ shared fuel timeout _ loops _ hr]
    unfold iterationTrace iterationReceive
    rw [hw2]
    have hlead2 : ∀ e ∈ Event.now ((queueEnv socketsOf).now w).1 ::
        (shared.map Event.update ++
          [Event.now ((queueEnv socketsOf).now
            (updateAll (queueEnv socketsOf) shared
              ((queueEnv socketsOf).now w).2)).1]),
        e.isPoll = false ∧ e.isProcess = false := by
      intro e he
      rcases List.mem_cons.mp he with rfl | he
      · exact ⟨rfl, rfl⟩
      · rcases List.mem_append.mp he with he | he
        · exact hlead e he
        · rw [List.mem_singleton] at he
          subst he
          exact ⟨rfl, rfl⟩
    have hsplit : ∀ (a b : Event) (u t : List Event),
        a :: (u ++ b :: t) = (a :: (u ++ [b])) ++ t := by
      intro a b u t
      simp
    simp only []
    rw [hsplit]
    refine ⟨h1, ?_, h4, ?_,
      Event.now ((queueEnv socketsOf).now w).1 ::
        (shared.map Event.update ++
          [Event.now ((queueEnv socketsOf).now
            (updateAll (queueEnv socketsOf) shared
              ((queueEnv socketsOf).now w).2)).1]),
      waitOf timeout (elapsedOf ((queueEnv socketsOf).now w).1
        ((queueEnv socketsOf).now (updateAll (queueEnv socketsOf) shared
          ((queueEnv socketsOf).now w).2)).1),
      ret, rest, ?_, hlead2, h6, h7⟩
    · rw [List.filter_append, hcount _ hlead2, List.nil_append, h2]
    · rw [List.getLast?_append, h3]
      rfl
    · rw [h5]

/-! ## Publisher construction -/

theorem Impl_null (c : Constants) (h : Host) (uri : URI) (session : String)
    (hs : session ≠ "") (hb : h.zmq_bind h.socket (h.buildZmqURI uri) ≠ -1)
    (hn : session = c.NULL_SESSION) :
    Impl c h uri session
      = ⟨.returned ⟨h.socket, h.initURI uri,
            if session = c.DEFAULT_SESSION then h.getDefaultSession
            else session⟩, (),
          [.bind h.socket (h.buildZmqURI uri)]⟩ := by
  unfold Impl
  rw [if_neg hs, if_neg hb, if_neg (not_not.mpr hn)]

theorem Impl_unavailable (c : Constants) (h : Host) (uri : URI)
    (session : String) (hs : session ≠ "")
    (hb : h.zmq_bind h.socket (h.buildZmqURI uri) ≠ -1)
    (hn : session ≠ c.NULL_SESSION) (ha : h.isAvailable = false) :
    Impl c h uri session
      = ⟨.threw .noZeroconf, (),
          [.bind h.socket (h.buildZmqURI uri), .isAvailable]⟩ := by
  unfold Impl
  rw [if_neg hs, if_neg hb, if_pos hn]
  simp only [_initService, ha, Bool.not_false, if_true]

theorem Impl_announce_failed (c : Constants) (h : Host) (uri : URI)
    (session : String) (hs : session ≠ "")
    (hb : h.zmq_bind h.socket (h.buildZmqURI uri) ≠ -1)
    (hn : session ≠ c.NULL_SESSION) (ha : h.isAvailable = true)
    (hr : (h.announce
        (serviceData c h ⟨h.socket, h.initURI uri,
          if session = c.DEFAULT_SESSION then h.getDefaultSession
          else session⟩)
        (h.initURI uri).port (h.getAddress (h.initURI uri))).1 = false) :
    Impl c h uri session
      = ⟨.threw (.announceFailed
            (h.announce
              (serviceData c h ⟨h.socket, h.initURI uri,
                if session = c.DEFAULT_SESSION then h.getDefaultSession
                else session⟩)
              (h.initURI uri).port (h.getAddress (h.initURI uri))).2), (),
          CtorEvent.bind h.socket (h.buildZmqURI uri) ::
            CtorEvent.isAvailable ::
            ((serviceData c h ⟨h.socket, h.initURI uri,
                if session = c.DEFAULT_SESSION then h.getDefaultSession
                else session⟩).map (fun kv => CtorEvent.set kv.1 kv.2) ++
              [CtorEvent.announce (h.initURI uri).port
                (h.getAddress (h.initURI uri))
                (serviceData c h ⟨h.socket, h.initURI uri,
                  if session = c.DEFAULT_SESSION then h.getDefaultSession
                  else session⟩)])⟩ := by
  unfold Impl
  rw [if_neg hs, if_neg hb, if_pos hn]
  simp only [_initService, ha, hr, Bool.not_true, Bool.not_false, if_true,
    Bool.false_eq_true, if_false, List.cons_append]

theorem Impl_announce_ok (c : Constants) (h : Host) (uri : URI)
    (session : String) (hs : session ≠ "")
    (hb : h.zmq_bind h.socket (h.buildZmqURI uri) ≠ -1)
    (hn : session ≠ c.NULL_SESSION) (ha : h.isAvailable = true)
    (hr : (h.announce
        (serviceData c h ⟨h.socket, h.initURI uri,
          if session = c.DEFAULT_SESSION then h.getDefaultSession
          else session⟩)
        (h.initURI uri).port (h.getAddress (h.initURI uri))).1 = true) :
    Impl c h uri session
      = ⟨.returned ⟨h.socket, h.initURI uri,
            if session = c.DEFAULT_SESSION then h.getDefaultSession
            else session⟩, (),
          CtorEvent.bind h.socket (h.buildZmqURI uri) ::
            CtorEvent.isAvailable ::
            ((serviceData c h ⟨h.socket, h.initURI uri,
                if session = c.DEFAULT_SESSION then h.getDefaultSession
                else session⟩).map (fun kv => CtorEvent.set kv.1 kv.2) ++
              [CtorEvent.announce (h.initURI uri).port
                (h.getAddress (h.initURI uri))
                (serviceData c h ⟨h.socket, h.initURI uri,
                  if session = c.DEFAULT_SESSION then h.getDefaultSession
                  else session⟩)])⟩ := by
  unfold Impl
  rw [if_neg hs, if_neg hb, if_pos hn]
  simp only [_initService, ha, hr, Bool.not_true, Bool.not_false, if_true,
    Bool.false_eq_true, if_false, List.cons_append]

theorem Impl_bind_failed (c : Constants) (h : Host) (uri : URI)
    (session : String) (hs : session ≠ "")
    (hb : h.zmq_bind h.socket (h.buildZmqURI uri) = -1) :
    Impl c h uri session
      = ⟨.threw (.cannotBind (h.buildZmqURI uri) h.zmq_strerror), (),
          [.bind h.socket (h.buildZmqURI uri), .close h.socket]⟩ := by
  unfold Impl
  rw [if_neg hs, if_pos hb]

/-- C8: constructing a publisher with the empty session raises the
empty-session error before any call on the transport or on the discovery
adapter (no bind, no announce); with a non-empty session the construction
never raises that error. -/
theorem empty_session_rejected (c : Constants) (h : Host) (uri : URI) :
    (Impl c h uri "").outcome = .threw .emptySession ∧
    (Impl c h uri "").trace = [] ∧
    ∀ session : String, session ≠ "" →
      (Impl c h uri session).outcome ≠ .threw .emptySession := by
  refine ⟨by simp [Impl], by simp [Impl], ?_⟩
  intro session hs
  by_cases hb : h.zmq_bind h.socket (h.buildZmqURI uri) = -1
  · rw [Impl_bind_failed c h uri session hs hb]
    simp
  · by_cases hn : session = c.NULL_SESSION
    · rw [Impl_null c h uri session hs hb hn]
      simp
    · cases ha : h.isAvailable with
      | false =>
        rw [Impl_unavailable c h uri session hs hb hn ha]
        simp
      | true =>
        cases hr : (h.announce
            (serviceData c h ⟨h.socket, h.initURI uri,
              if session = c.DEFAULT_SESSION then h.getDefaultSession
              else session⟩)
            (h.initURI uri).port (h.getAddress (h.initURI uri))).1 with
        | false =>
          rw [Impl_announce_failed c h uri session hs hb hn ha hr]
          simp
        | true =>
          rw [Impl_announce_ok c h uri session hs hb hn ha hr]
          simp

/-- C9, as stated, fails in two places.  With the default session resolving
to the empty string, the constructor announces with metadata that carries no
session; and with a session other than `NULL_SESSION` on a host without
discovery, it fails without having called `announce`. -/
theorem announce_without_session_or_not_at_all :
    ((Impl sampleConstants (sampleHost "" true) ⟨"", "", 0⟩ "__zeroeq").outcome
        = .returned ⟨1, ⟨"", "*", 4242⟩, ""⟩ ∧
      (Impl sampleConstants (sampleHost "" true) ⟨"", "", 0⟩ "__zeroeq").trace
        = [CtorEvent.bind 1 "tcp://*:0", CtorEvent.isAvailable,
           CtorEvent.set "instance" "6ba7b810", CtorEvent.set "user" "",
           CtorEvent.set "application" "app",
           CtorEvent.announce 4242 "*:4242"
             [("instance", "6ba7b810"), ("user", ""), ("application", "app")]]) ∧
    ("s" ≠ sampleConstants.NULL_SESSION ∧
      (Impl sampleConstants (sampleHost "" false) ⟨"", "", 0⟩ "s").outcome
        = .threw .noZeroconf ∧
      (Impl sampleConstants (sampleHost "" false) ⟨"", "", 0⟩ "s").trace
        = [CtorEvent.bind 1 "tcp://*:0", CtorEvent.isAvailable]) := by
  decide

/-- C9, amended: for a non-empty session and a successful bind, the
constructor turns to the discovery adapter exactly when the session is not
`NULL_SESSION`.  It then probes `isAvailable()`; without discovery it fails
with the no-zeroconf error and `announce` is not called; with discovery it
sets instance UUID, user name and application name, and the publisher's
session when that is not empty, calls `announce` once with these, and fails
with the announce error exactly when the result is a failure.  With
`NULL_SESSION` the only call is the bind and the construction succeeds. -/
theorem announce_unless_null_session (c : Constants) (h : Host) (uri : URI)
    (session : String) (hs : session ≠ "")
    (hb : h.zmq_bind h.socket (h.buildZmqURI uri) ≠ -1) :
    (session = c.NULL_SESSION →
      (Impl c h uri session).outcome
        = .returned ⟨h.socket, h.initURI uri,
            if session = c.DEFAULT_SESSION then h.getDefaultSession
            else session⟩ ∧
      (Impl c h uri session).trace = [.bind h.socket (h.buildZmqURI uri)]) ∧
    (session ≠ c.NULL_SESSION →
      (h.isAvailable = false →
        (Impl c h uri session).outcome = .threw .noZeroconf ∧
        (Impl c h uri session).trace
          = [.bind h.socket (h.buildZmqURI uri), .isAvailable]) ∧
      (h.isAvailable = true →
        (Impl c h uri session).trace
          = CtorEvent.bind h.socket (h.buildZmqURI uri) ::
            CtorEvent.isAvailable ::
            ((serviceData c h ⟨h.socket, h.initURI uri,
                if session = c.DEFAULT_SESSION then h.getDefaultSession
                else session⟩).map (fun kv => CtorEvent.set kv.1 kv.2) ++
              [CtorEvent.announce (h.initURI uri).port
                (h.getAddress (h.initURI uri))
                (serviceData c h ⟨h.socket, h.initURI uri,
                  if session = c.DEFAULT_SESSION then h.getDefaultSession
                  else session⟩)]) ∧
        serviceData c h ⟨h.socket, h.initURI uri,
            if session = c.DEFAULT_SESSION then h.getDefaultSession
            else session⟩
          = [(c.KEY_INSTANCE, h.uuid), (c.KEY_USER, h.getUserName),
              (c.KEY_APPLICATION, h.getApplicationName)] ++
            (if (if session = c.DEFAULT_SESSION then h.getDefaultSession
                else session) ≠ "" then
              [(c.KEY_SESSION,
                if session = c.DEFAULT_SESSION then h.getDefaultSession
                else session)]
            else []) ∧
        ((h.announce
            (serviceData c h ⟨h.socket, h.initURI uri,
              if session = c.DEFAULT_SESSION then h.getDefaultSession
              else session⟩)
            (h.initURI uri).port (h.getAddress (h.initURI uri))).1 = true →
          (Impl c h uri session).outcome
            = .returned ⟨h.socket, h.initURI uri,
                if session = c.DEFAULT_SESSION then h.getDefaultSession
                else session⟩) ∧
        ((h.announce
            (serviceData c h ⟨h.socket, h.initURI uri,
              if session = c.DEFAULT_SESSION then h.getDefaultSession
              else session⟩)
            (h.initURI uri).port (h.getAddress (h.initURI uri))).1 = false →
          (Impl c h uri session).outcome
            = .threw (.announceFailed
                (h.announce
                  (serviceData c h ⟨h.socket, h.initURI uri,
                    if session = c.DEFAULT_SESSION then h.getDefaultSession
                    else session⟩)
                  (h.initURI uri).port (h.getAddress (h.initURI uri))).2)))) := by
  refine ⟨?_, ?_⟩
  · intro hn
    rw [Impl_null c h uri session hs hb hn]
    exact ⟨rfl, rfl⟩
  · intro hn
    refine ⟨?_, ?_⟩
    · intro ha
      rw [Impl_unavailable c h uri session hs hb hn ha]
      exact ⟨rfl, rfl⟩
    · intro ha
      refine ⟨?_, rfl, ?_, ?_⟩
      · cases hr : (h.announce
            (serviceData c h ⟨h.socket, h.initURI uri,
              if session = c.DEFAULT_SESSION then h.getDefaultSession
              else session⟩)
            (h.initURI uri).port (h.getAddress (h.initURI uri))).1 with
        | false => rw [Impl_announce_failed c h uri session hs hb hn ha hr]
        | true => rw [Impl_announce_ok c h uri session hs hb hn ha hr]
      · intro hr
        rw [Impl_announce_ok c h uri session hs hb hn ha hr]
      · intro hr
        rw [Impl_announce_failed c h uri session hs hb hn ha hr]

/-- C9, amended, at a concrete input: session `"s"` on a host with
discovery. -/
theorem announce_unless_null_session_witness :
    ("s" : String) ≠ "" ∧
    (sampleHost "" true).zmq_bind (sampleHost "" true).socket
      ((sampleHost "" true).buildZmqURI ⟨"", "", 0⟩) ≠ -1 ∧
    (Impl sampleConstants (sampleHost "" true) ⟨"", "", 0⟩ "s").trace
      = [CtorEvent.bind 1 "tcp://*:0", CtorEvent.isAvailable,
         CtorEvent.set "instance" "6ba7b810", CtorEvent.set "user" "",
         CtorEvent.set "application" "app", CtorEvent.set "session" "s",
         CtorEvent.announce 4242 "*:4242"
           [("instance", "6ba7b810"), ("user", ""), ("application", "app"),
            ("session", "s")]] := by
  refine ⟨by decide, by decide, ?_⟩
  have h := ((announce_unless_null_session sampleConstants (sampleHost "" true)
    ⟨"", "", 0⟩ "s" (by decide) (by decide)).2 (by decide)).2 rfl
  rw [h.1]
  decide

/-! ## The queue model is a consistent transport -/

theorem queue_consistent (socketsOf : Nat → List Nat) :
    ConsistentPoll (queueEnv socketsOf) := by
  intro sockets t w h0 _
  rw [queue_setRevents]
  have hfilter : sockets.filter (fun s => decide (0 < w.pending s.socket))
      ≠ [] := by
    intro h
    apply h0
    rw [queue_poll_ret, h]
    rfl
  obtain ⟨s, hs⟩ := List.exists_mem_of_ne_nil _ hfilter
  rw [List.mem_filter] at hs
  rw [List.any_eq_true]
  exact ⟨markReady w s, List.mem_map.mpr ⟨s, hs.1, rfl⟩,
    by rw [readable_markReady]; exact hs.2⟩

/-- The queue model with three messages pending: `receive` returns `true`
and `process` calls ran. -/
theorem receive_true_iff_processed_witness :
    ConsistentPoll (queueEnv sampleSockets) ∧
    (receive (queueEnv sampleSockets) 4294967295 [10, 11, 12, 13] 1 4 100
        ⟨samplePending, 0⟩).outcome = .returned true ∧
    (true = true ↔
      ∃ e ∈ (receive (queueEnv sampleSockets) 4294967295 [10, 11, 12, 13] 1 4
          100 ⟨samplePending, 0⟩).trace,
        e.isProcess = true) :=
  ⟨queue_consistent sampleSockets, by decide,
    receive_true_iff_processed_of_consistent_poll (queueEnv sampleSockets)
      4294967295 [10, 11, 12, 13] 1 4 100 ⟨samplePending, 0⟩
      (queue_consistent sampleSockets) true (by decide)⟩

/-- C4, at a concrete input: receivers 10, 11, 12, 13 with two messages on
socket 2 and one on socket 3. -/
theorem edge_triggered_drain_witness :
    ((flatSockets (queueEnv sampleSockets) [10, 11, 12, 13]
        ⟨samplePending, 0⟩).map Socket.socket).Nodup ∧
    pendingTotal (flatSockets (queueEnv sampleSockets) [10, 11, 12, 13]
        ⟨samplePending, 0⟩) ⟨samplePending, 0⟩ = 3 ∧
    (receive (queueEnv sampleSockets) 4294967295 [10, 11, 12, 13] (0 + 1) 4
        100 ⟨samplePending, 0⟩).outcome = .returned true ∧
    ((receive (queueEnv sampleSockets) 4294967295 [10, 11, 12, 13] (0 + 1) 4
        100 ⟨samplePending, 0⟩).trace.filter Event.isProcess).length
      = pendingTotal (flatSockets (queueEnv sampleSockets) [10, 11, 12, 13]
          ⟨samplePending, 0⟩) ⟨samplePending, 0⟩ :=
  ⟨by decide, by decide,
    (edge_triggered_drain sampleSockets 4294967295 [10, 11, 12, 13] 0 4 100
      ⟨samplePending, 0⟩ (by decide) (by decide) (by decide)).1,
    (edge_triggered_drain sampleSockets 4294967295 [10, 11, 12, 13] 0 4 100
      ⟨samplePending, 0⟩ (by decide) (by decide) (by decide)).2.1⟩

end ZeroEQ
